import Mathlib

/-!
# TCP networking core of LumixEngine (`src/engine/core/pc/network.cpp`)

A shallow embedding of `TCPStream`, `TCPAcceptor` and `TCPConnector` together
with the properties of the networking specification that concern them.

Conventions of the embedding.

* Machine integers are mathematical integers that are reduced explicitly:
  `toInt32` is the conversion to `int32` / `int`, `toSizeT` the conversion to
  the 64-bit `size_t`, `toUInt32` the conversion to `uint32`.
* A byte is a natural number; the codec of the length header reduces every
  byte modulo 256.
* Memory reached through a pointer is a function from offsets (relative to the
  pointer the caller passed) to bytes.
* The socket layer is a parameter.  A `Recv σ κ` is the behaviour of `::recv`
  on a transport with state `σ`; the network's choice for one call (how much
  it delivers, which error it reports) is a value of `κ`, and a run of the
  program consumes a list of such choices, its schedule.  A run that uses up
  the schedule, or whose transport blocks for ever, has not returned.
-/

namespace Lumix
namespace Net

/-! ## Machine integers and Winsock constants -/

/-- Conversion of an integer to the 32-bit signed type (`int32`, `int`),
two's complement. -/
def toInt32 (x : Int) : Int := (x + 2147483648) % 4294967296 - 2147483648

/-- Conversion of an integer to `uint32`. -/
def toUInt32 (x : Int) : Nat := (x % 4294967296).toNat

/-- Conversion of an integer to the 64-bit `size_t`; a negative `int` is
sign-extended. -/
def toSizeT (x : Int) : Nat := (x % 18446744073709551616).toNat

/-- Winsock error code `WSAEWOULDBLOCK`. -/
def WSAEWOULDBLOCK : Int := 10035

/-- Winsock error code `WSAEFAULT`. -/
def WSAEFAULT : Int := 10014

/-- Winsock result `SOCKET_ERROR`. -/
def SOCKET_ERROR : Int := -1

/-- Winsock handle value `INVALID_SOCKET`, that is `(SOCKET)(~0)`. -/
def INVALID_SOCKET : Nat := 18446744073709551615

/-! ## Memory -/

/-- Bytes reachable from a pointer, by offset. -/
abbrev Memory := Int → Nat

/-- Memory in which every byte is zero. -/
def zeroMemory : Memory := fun _ => 0

/-- Memory after `bytes` have been stored from offset `ptr` on. -/
def store (mem : Memory) (ptr : Int) (bytes : List Nat) : Memory :=
  fun a => if ptr ≤ a ∧ a < ptr + bytes.length then bytes.getD (a - ptr).toNat 0 else mem a

/-- The `n` bytes of memory from offset `ptr` on. -/
def load (mem : Memory) (ptr : Int) (n : Nat) : List Nat :=
  (List.range n).map (fun (i : Nat) => mem (ptr + (i : Int)))

/-! ## The socket layer -/

/-- Outcome of one `::recv` call: the `int` it returns, the bytes it stored at
the destination pointer, and the value `WSAGetLastError()` reports afterwards. -/
structure RecvResult where
  received : Int
  bytes : List Nat
  error : Int
deriving DecidableEq

/-- One completed `::recv` call: destination (offset from the caller's buffer),
requested count, and outcome. -/
structure RecvCall where
  ptr : Int
  len : Int
  result : RecvResult
deriving DecidableEq

/-- One `::send` call: the requested count, the bytes offered (the first `len`
bytes at the source pointer) and the `int` returned. -/
structure SendCall where
  len : Int
  offered : List Nat
  result : Int
deriving DecidableEq

/-- Behaviour of `::recv`: from the transport state, the network's choice for
this call and the requested count, either the call blocks for ever (`none`) or
it returns an outcome and a new state. -/
abbrev Recv (σ κ : Type) := σ → κ → Int → Option (RecvResult × σ)

/-- Behaviour of `::send`: from the transport state, the bytes at the source
pointer and the requested count, the `int` returned and the new state. -/
abbrev Send (σ : Type) := σ → List Nat → Int → Int × σ

/-- A transport that answers each `::recv` with the next scripted outcome,
whatever was requested. -/
def scripted : Recv Unit RecvResult := fun s r _ => some (r, s)

/-- Receiving end of a reliable FIFO byte channel whose state is the queue of
bytes in flight.  For a positive count the call returns a non-empty initial
segment of the queue, of `c + 1` bytes where `c` is the network's choice, cut
to the requested count and to what is queued; on an empty queue it blocks. -/
def chanRecv : Recv (List Nat) Nat := fun q c len =>
  if len < 0 then some (⟨SOCKET_ERROR, [], WSAEFAULT⟩, q)
  else if len = 0 then some (⟨0, [], 0⟩, q)
  else if q = [] then none
  else
    let n := min (c + 1) (min len.toNat q.length)
    some (⟨n, q.take n, 0⟩, q.drop n)

/-- Sending end of the same channel: every byte offered is accepted and
appended to the queue. -/
def chanSend : Send (List Nat) := fun q buffer len =>
  if len < 0 then (SOCKET_ERROR, q)
  else (len, q ++ buffer.take len.toNat)

/-- The outcome of a `::recv` call respects the contract of the transport: it
is a count between 1 and the count requested, with that many bytes stored, or
a non-positive result that stores nothing. -/
def RecvCall.Conforms (c : RecvCall) : Prop :=
  (1 ≤ c.result.received ∧ c.result.received ≤ c.len ∧
      (c.result.bytes.length : Int) = c.result.received) ∨
    (c.result.received ≤ 0 ∧ c.result.bytes = [])

instance (c : RecvCall) : Decidable c.Conforms := by
  unfold RecvCall.Conforms; infer_instance

/-- A hard failure: a zero or negative result whose error code is not
would-block. -/
def RecvResult.Hard (r : RecvResult) : Prop :=
  r.received ≤ 0 ∧ r.error ≠ WSAEWOULDBLOCK

instance (r : RecvResult) : Decidable r.Hard := by
  unfold RecvResult.Hard; infer_instance

/-- Number of bytes the calls of a run delivered into the buffer. -/
def accumulated : List RecvCall → Int
  | [] => 0
  | c :: cs => (if c.result.received > 0 then c.result.received else 0) + accumulated cs

/-! ## `TCPStream::read` -/

/-- Result of a run of `TCPStream::read`: the value returned (`none` when the
call has not returned), the buffer, the final offset of `ptr` from `buffer`,
the completed `::recv` calls in order, the transport state and the unused part
of the schedule. -/
structure ReadResult (σ κ : Type) where
  ret : Option Bool
  buffer : Memory
  ptr : Int
  calls : List RecvCall
  socket : σ
  schedule : List κ

/-- Put a completed call in front of the calls of the rest of the run. -/
def ReadResult.after {σ κ : Type} (c : RecvCall) (r : ReadResult σ κ) : ReadResult σ κ :=
  { r with calls := c :: r.calls }

/-- The `do ... while (to_receive > 0)` loop of `TCPStream::read`, entered
with the current values of `ptr` and `to_receive`. -/
def readLoop {σ κ : Type} (recv : Recv σ κ) :
    List κ → σ → Memory → Int → Int → ReadResult σ κ
  | [], s, buffer, ptr, _ => ⟨none, buffer, ptr, [], s, []⟩
  | k :: ks, s, buffer, ptr, to_receive =>
    match recv s k to_receive with
    | none => ⟨none, buffer, ptr, [], s, k :: ks⟩
    | some (r, s') =>
      let buffer' := store buffer ptr r.bytes
      let call : RecvCall := ⟨ptr, to_receive, r⟩
      let received := r.received
      let ptr₁ := ptr + received
      let to_receive₁ := toInt32 (to_receive - received)
      if received ≤ 0 then
        if r.error = WSAEWOULDBLOCK then
          let ptr₂ := ptr₁ - received
          let to_receive₂ := toInt32 (to_receive₁ + received)
          if to_receive₂ > 0 then (readLoop recv ks s' buffer' ptr₂ to_receive₂).after call
          else ⟨some true, buffer', ptr₂, [call], s', ks⟩
        else ⟨some false, buffer', ptr₁, [call], s', ks⟩
      else
        if to_receive₁ > 0 then (readLoop recv ks s' buffer' ptr₁ to_receive₁).after call
        else ⟨some true, buffer', ptr₁, [call], s', ks⟩

/-- The method `TCPStream::read(void* buffer, size_t size)`. -/
def read {σ κ : Type} (recv : Recv σ κ) (ks : List κ) (s : σ) (buffer : Memory)
    (size : Nat) : ReadResult σ κ :=
  readLoop recv ks s buffer 0 (toInt32 size)

/-! ## `TCPStream::write` -/

/-- Result of a run of `TCPStream::write` or `TCPStream::writeString`: the
value returned, the `::send` calls made in order, and the transport state. -/
structure WriteResult (σ : Type) where
  ret : Bool
  sends : List SendCall
  socket : σ

/-- The method `TCPStream::write(const void* buffer, size_t size)`; `buffer`
lists the bytes at the source pointer. -/
def write {σ : Type} (send : Send σ) (s : σ) (buffer : List Nat) (size : Nat) :
    WriteResult σ :=
  let len := toInt32 size
  let out := send s buffer len
  ⟨decide (toSizeT out.1 = toSizeT size), [⟨len, buffer.take len.toNat, out.1⟩], out.2⟩

/-- Number of bytes the transport accepted, from the result of `::send`: the
count returned, none for an error value. -/
def accepted (result : Int) : Nat := result.toNat

/-- A transport whose `::send` returns the same value on every call. -/
def constSend (result : Int) : Send Unit := fun s _ _ => (result, s)

/-- Sending end of the FIFO channel when the transport takes at most `limit`
bytes in one call: the bytes taken are appended to the queue and their number
is returned. -/
def chanSendUpTo (limit : Nat) : Send (List Nat) := fun q buffer len =>
  if len < 0 then (SOCKET_ERROR, q)
  else ((min limit len.toNat : Nat), q ++ buffer.take (min limit len.toNat))

/-! ## The framed string helpers -/

/-- Modelled from the spec: the object representation of a `uint32`, which is
what the templates `write(const T&)` and `read(T&)` of `core/network.h`
transfer for the length header (4 bytes, host-endian, little-endian on the
supported platform). -/
def encodeUInt32 (n : Nat) : List Nat :=
  [n % 256, n / 256 % 256, n / 65536 % 256, n / 16777216 % 256]

/-- Modelled from the spec: the `uint32` whose object representation is the
first four bytes of `bs`, counterpart of `encodeUInt32`. -/
def decodeUInt32 (bs : List Nat) : Nat :=
  bs.getD 0 0 % 256 + bs.getD 1 0 % 256 * 256 + bs.getD 2 0 % 256 * 65536 +
    bs.getD 3 0 % 256 * 16777216

/-- Modelled from the spec: `stringLength` of `core/string.h`, the number of
bytes before the first terminator; `string` lists the bytes at the pointer. -/
def stringLength (string : List Nat) : Nat :=
  (string.takeWhile (fun b => b != 0)).length

/-- Modelled from the spec: the call `write(len)` for a `uint32`, which is
`write(&len, sizeof(len))`. -/
def writeUInt32 {σ : Type} (send : Send σ) (s : σ) (value : Nat) : WriteResult σ :=
  write send s (encodeUInt32 value) 4

/-- The method `TCPStream::writeString(const char* string)`. -/
def writeString {σ : Type} (send : Send σ) (s : σ) (string : List Nat) : WriteResult σ :=
  let len := toUInt32 ((toUInt32 (stringLength string) : Int) + 1)
  let w₁ := writeUInt32 send s len
  let w₂ := write send w₁.socket string len
  ⟨w₁.ret && w₂.ret, w₁.sends ++ w₂.sends, w₂.socket⟩

/-- How a call of `readString` ends: it has not returned, the `ASSERT` failed,
or it returned a value. -/
inductive Outcome where
  | pending
  | assertion
  | returned (ret : Bool)
deriving DecidableEq

/-- Result of a run of `TCPStream::readString`: how it ended, the value of the
local `len` after the header was read, the run of `read(len)`, the run of
`read(string, len)` when it was started, and the caller's buffer. -/
structure ReadStringResult (σ κ : Type) where
  outcome : Outcome
  len : Nat
  header : ReadResult σ κ
  payload : Option (ReadResult σ κ)
  string : Memory

/-- Modelled from the spec: the call `read(len)` for a `uint32`, which is
`read(&len, sizeof(len))`; `value` is what the variable holds before the call,
and the bytes of the variable afterwards are the first four of the buffer of
the result. -/
def readUInt32 {σ κ : Type} (recv : Recv σ κ) (ks : List κ) (s : σ) (value : Nat) :
    ReadResult σ κ :=
  read recv ks s (store zeroMemory 0 (encodeUInt32 value)) 4

/-- Modelled from the spec: the macro `ASSERT`, whose definition is not under
src.  A failing assertion is fatal: the run ends in `failed` and the code
after the assertion, `next`, is not executed. -/
def ASSERT {α : Type} (condition : Prop) [Decidable condition] (failed next : α) : α :=
  if condition then next else failed

/-- The method `TCPStream::readString(char* string, uint32 max_size)`. -/
def readString {σ κ : Type} (recv : Recv σ κ) (ks : List κ) (s : σ) (string : Memory)
    (max_size : Nat) : ReadStringResult σ κ :=
  let h := readUInt32 recv ks s 0
  let len := decodeUInt32 (load h.buffer 0 4)
  match h.ret with
  | none => ⟨.pending, len, h, none, string⟩
  | some ret₁ =>
    ASSERT (len < max_size) ⟨.assertion, len, h, none, string⟩
      (let p := read recv h.schedule h.socket string len
       match p.ret with
       | none => ⟨.pending, len, h, some p, p.buffer⟩
       | some ret₂ => ⟨.returned ((true && ret₁) && ret₂), len, h, some p, p.buffer⟩)

/-- Number of bytes a run of `readString` stored into the caller's buffer. -/
def ReadStringResult.stored {σ κ : Type} (r : ReadStringResult σ κ) : Int :=
  match r.payload with
  | none => 0
  | some p => accumulated p.calls

/-! ## System calls of connection establishment -/

/-- The address structure `SOCKADDR_IN` as the code fills it. -/
structure SockAddr where
  sin_family : Nat
  sin_port : Nat
  s_addr : Nat
deriving DecidableEq

/-- A system call the networking core issues, with its arguments. -/
inductive SysCall where
  | wsaStartup (version : Nat)
  | socket (af type protocol : Nat)
  | bind (socket : Nat) (sin : SockAddr)
  | listen (socket : Nat) (backlog : Nat)
  | connect (socket : Nat) (sin : SockAddr)
  | accept (socket : Nat)
  | closesocket (socket : Nat)
deriving DecidableEq

/-- The Winsock value `MAKEWORD(low, high)`. -/
def MAKEWORD (low high : Nat) : Nat := low % 256 + high % 256 * 256

/-- Winsock address and socket constants. -/
def PF_INET : Nat := 2

/-- Address family `AF_INET`. -/
def AF_INET : Nat := 2

/-- Socket type `SOCK_STREAM`. -/
def SOCK_STREAM : Nat := 1

/-- Protocol `IPPROTO_TCP`. -/
def IPPROTO_TCP : Nat := 6

/-- Wildcard address `INADDR_ANY`. -/
def INADDR_ANY : Nat := 0

/-- The function `htons` on a little-endian host: the two bytes of a 16-bit
value swapped. -/
def htons (port : Nat) : Nat := port % 256 * 256 + port / 256 % 256

/-- The address the code builds from `ip` and `port`; `inet_addr` is the
system's conversion of the textual address. -/
def makeSockAddr (inet_addr : List Nat → Nat) (ip : Option (List Nat)) (port : Nat) :
    SockAddr :=
  ⟨AF_INET, htons port, match ip with
    | some text => inet_addr text
    | none => INADDR_ANY⟩

/-- A `TCPStream`: the connected socket it wraps. -/
structure TCPStream where
  m_socket : Nat
deriving DecidableEq

/-- The destructor `TCPStream::~TCPStream`. -/
def TCPStream.destroy (self : TCPStream) : List SysCall := [.closesocket self.m_socket]

/-! ## `TCPAcceptor` -/

/-- A `TCPAcceptor`: the handle in its member `m_socket`. -/
structure TCPAcceptor where
  m_socket : Nat
deriving DecidableEq

/-- The constructor `TCPAcceptor::TCPAcceptor`, which leaves `m_socket`
uninitialised: the object holds whatever value the storage held. -/
def TCPAcceptor.new (indeterminate : Nat) : TCPAcceptor := ⟨indeterminate⟩

/-- The destructor `TCPAcceptor::~TCPAcceptor`. -/
def TCPAcceptor.destroy (self : TCPAcceptor) : List SysCall := [.closesocket self.m_socket]

/-- Results the system gives to the calls of `TCPAcceptor::start`. -/
structure StartResults where
  wsaStartup : Int
  socket : Nat
  bind : Int
  listen : Int
deriving DecidableEq

/-- Result of `TCPAcceptor::start`: the value returned, the acceptor after
the call, and the system calls issued in order. -/
structure StartRun where
  ret : Bool
  acceptor : TCPAcceptor
  calls : List SysCall
deriving DecidableEq

/-- The method `TCPAcceptor::start(const char* ip, uint16 port)`. -/
def TCPAcceptor.start (self : TCPAcceptor) (os : StartResults) (inet_addr : List Nat → Nat)
    (ip : Option (List Nat)) (port : Nat) : StartRun :=
  let sockVer := MAKEWORD 2 2
  if os.wsaStartup ≠ 0 then ⟨false, self, [.wsaStartup sockVer]⟩
  else
    let socket := os.socket
    if socket = INVALID_SOCKET then
      ⟨false, self, [.wsaStartup sockVer, .socket PF_INET SOCK_STREAM IPPROTO_TCP]⟩
    else
      let sin := makeSockAddr inet_addr ip port
      let retVal := os.bind
      if retVal = SOCKET_ERROR then
        ⟨false, self, [.wsaStartup sockVer, .socket PF_INET SOCK_STREAM IPPROTO_TCP,
          .bind socket sin]⟩
      else
        ⟨decide (os.listen = 0), ⟨socket⟩,
          [.wsaStartup sockVer, .socket PF_INET SOCK_STREAM IPPROTO_TCP, .bind socket sin,
            .listen socket 10]⟩

/-- The method `TCPAcceptor::accept()`; `result` is what `::accept` returns.
The returned pointer is never null: it is the new `TCPStream`. -/
def TCPAcceptor.accept (self : TCPAcceptor) (result : Nat) : TCPStream × List SysCall :=
  (⟨result⟩, [.accept self.m_socket])

/-- The method `TCPAcceptor::close(TCPStream* stream)`: the stream is
destroyed. -/
def TCPAcceptor.close (_self : TCPAcceptor) (stream : TCPStream) : List SysCall :=
  stream.destroy

/-! ## `TCPConnector` -/

/-- A `TCPConnector`: the handle in its member `m_socket`. -/
structure TCPConnector where
  m_socket : Nat
deriving DecidableEq

/-- The constructor `TCPConnector::TCPConnector`, which sets `m_socket` to 0. -/
def TCPConnector.new : TCPConnector := ⟨0⟩

/-- The destructor `TCPConnector::~TCPConnector`. -/
def TCPConnector.destroy (self : TCPConnector) : List SysCall := [.closesocket self.m_socket]

/-- Results the system gives to the calls of `TCPConnector::connect`. -/
structure ConnectResults where
  wsaStartup : Int
  socket : Nat
  connect : Int
deriving DecidableEq

/-- Result of `TCPConnector::connect`: the pointer returned (`none` is null),
the connector after the call, and the system calls issued in order. -/
structure ConnectRun where
  ret : Option TCPStream
  connector : TCPConnector
  calls : List SysCall
deriving DecidableEq

/-- The method `TCPConnector::connect(const char* ip, uint16 port)`. -/
def TCPConnector.connect (self : TCPConnector) (os : ConnectResults)
    (inet_addr : List Nat → Nat) (ip : Option (List Nat)) (port : Nat) : ConnectRun :=
  let sockVer := MAKEWORD 2 2
  if os.wsaStartup ≠ 0 then ⟨none, self, [.wsaStartup sockVer]⟩
  else
    let socket := os.socket
    if socket = INVALID_SOCKET then
      ⟨none, self, [.wsaStartup sockVer, .socket PF_INET SOCK_STREAM IPPROTO_TCP]⟩
    else
      let sin := makeSockAddr inet_addr ip port
      if os.connect ≠ 0 then
        ⟨none, self, [.wsaStartup sockVer, .socket PF_INET SOCK_STREAM IPPROTO_TCP,
          .connect socket sin]⟩
      else
        ⟨some ⟨socket⟩, ⟨socket⟩,
          [.wsaStartup sockVer, .socket PF_INET SOCK_STREAM IPPROTO_TCP, .connect socket sin]⟩

/-- The method `TCPConnector::close(TCPStream* stream)`: the stream is
destroyed. -/
def TCPConnector.close (_self : TCPConnector) (stream : TCPStream) : List SysCall :=
  stream.destroy

/-! ## Would-block outcomes -/

/-- A would-block outcome: a zero or negative result whose error code is
`WSAEWOULDBLOCK`. -/
def RecvResult.WouldBlock (r : RecvResult) : Prop :=
  r.received ≤ 0 ∧ r.error = WSAEWOULDBLOCK

instance (r : RecvResult) : Decidable r.WouldBlock := by
  unfold RecvResult.WouldBlock; infer_instance

/-- Number of calls of a run that ended in a would-block outcome. -/
def wouldBlocks : List RecvCall → Nat
  | [] => 0
  | c :: cs => (if c.result.WouldBlock then 1 else 0) + wouldBlocks cs

/-! ## The open sockets of the process -/

/-- Winsock error code `WSAENOTSOCK`. -/
def WSAENOTSOCK : Int := 10038

/-- The sockets of the process: the handles that are open, and the handles on
which `listen` has succeeded and that have not been closed since. -/
structure Sockets where
  opened : List Nat
  listening : List Nat
deriving DecidableEq

/-- Effect of `closesocket(h)`: the handle is open no more. -/
def Sockets.close (w : Sockets) (h : Nat) : Sockets :=
  ⟨w.opened.filter (fun x => x != h), w.listening.filter (fun x => x != h)⟩

/-- Effect on the sockets of the system calls of a destructor or of `close`:
each `closesocket` closes its handle. -/
def Sockets.closeAll (w : Sockets) : List SysCall → Sockets
  | [] => w
  | .closesocket h :: calls => (w.close h).closeAll calls
  | _ :: calls => w.closeAll calls

/-- Effect on the sockets of one system call of `TCPAcceptor::start`, the
system having answered with `os`: a successful `socket` opens the new handle,
a successful `listen` makes its handle a listening one, `closesocket` closes. -/
def Sockets.step (os : StartResults) (w : Sockets) : SysCall → Sockets
  | .socket _ _ _ => if os.socket = INVALID_SOCKET then w else ⟨os.socket :: w.opened, w.listening⟩
  | .listen h _ => if os.listen = 0 then ⟨w.opened, h :: w.listening⟩ else w
  | .closesocket h => w.close h
  | _ => w

/-- Effect on the sockets of the system calls of one `start`, in order. -/
def Sockets.afterStart (w : Sockets) (os : StartResults) (calls : List SysCall) : Sockets :=
  calls.foldl (Sockets.step os) w

/-- One call of `start` in a sequence: its arguments and the results the
system gives to its system calls. -/
structure StartCall where
  os : StartResults
  ip : Option (List Nat)
  port : Nat
deriving DecidableEq

/-- A sequence of `start` calls on one acceptor: the acceptor and the sockets
of the process after the last of them. -/
def startAll (inet_addr : List Nat → Nat) :
    TCPAcceptor → Sockets → List StartCall → TCPAcceptor × Sockets
  | a, w, [] => (a, w)
  | a, w, c :: cs =>
    startAll inet_addr (a.start c.os inet_addr c.ip c.port).acceptor
      (w.afterStart c.os (a.start c.os inet_addr c.ip c.port).calls) cs

/-- Whether a `start` call returns `true`: startup, socket creation, bind and
listen all succeed. -/
def succeeded (c : StartCall) : Bool :=
  decide (c.os.wsaStartup = 0) && decide (c.os.socket ≠ INVALID_SOCKET) &&
    decide (c.os.bind ≠ SOCKET_ERROR) && decide (c.os.listen = 0)

/-- Behaviour of `::recv` on the handle `h`: on a handle that is not open the
call fails with `WSAENOTSOCK`, on an open one the transport answers. -/
def sockRecv {σ κ : Type} (w : Sockets) (h : Nat) (recv : Recv σ κ) : Recv σ κ :=
  fun s k len =>
    if h ∈ w.opened then recv s k len else some (⟨SOCKET_ERROR, [], WSAENOTSOCK⟩, s)

/-- Behaviour of `::send` on the handle `h`: on a handle that is not open the
call fails, on an open one the transport answers. -/
def sockSend {σ : Type} (w : Sockets) (h : Nat) (send : Send σ) : Send σ :=
  fun s buffer len => if h ∈ w.opened then send s buffer len else (SOCKET_ERROR, s)

/-- Modelled from the spec: the pointer `TCPAcceptor::accept` returns, `none`
for null.  The macro `LUMIX_NEW` is not under src; it allocates and constructs
the object and yields its address. -/
def TCPAcceptor.acceptPointer (self : TCPAcceptor) (result : Nat) : Option TCPStream :=
  some (self.accept result).1

/-- Sign extension to 64 bits of a 32-bit `int`, read as an unsigned value:
a non-negative value is kept, a negative one has 2^64 added. -/
def signExtend64 (result : Int) : Nat :=
  if 0 ≤ result then result.toNat else (18446744073709551616 + result).toNat

/-! ## Arithmetic of the conversions -/

theorem toInt32_of_range {x : Int} (h₁ : -2147483648 ≤ x) (h₂ : x < 2147483648) :
    toInt32 x = x := by
  unfold toInt32; omega

theorem toInt32_range (x : Int) : -2147483648 ≤ toInt32 x ∧ toInt32 x < 2147483648 := by
  unfold toInt32; omega

theorem toInt32_restore (t r : Int) : toInt32 (toInt32 (t - r) + r) = toInt32 t := by
  unfold toInt32; omega

theorem toInt32_ofNat_small {n : Nat} (h : n < 2147483648) : toInt32 (n : Int) = n := by
  unfold toInt32; omega

/-! ## One iteration of the loop of `read` -/

section Loop

variable {σ κ : Type} (recv : Recv σ κ)

@[simp] theorem after_ret (c : RecvCall) (r : ReadResult σ κ) : (r.after c).ret = r.ret := rfl

@[simp] theorem after_calls (c : RecvCall) (r : ReadResult σ κ) :
    (r.after c).calls = c :: r.calls := rfl

@[simp] theorem after_ptr (c : RecvCall) (r : ReadResult σ κ) : (r.after c).ptr = r.ptr := rfl

@[simp] theorem after_buffer (c : RecvCall) (r : ReadResult σ κ) :
    (r.after c).buffer = r.buffer := rfl

@[simp] theorem after_socket (c : RecvCall) (r : ReadResult σ κ) :
    (r.after c).socket = r.socket := rfl

@[simp] theorem after_schedule (c : RecvCall) (r : ReadResult σ κ) :
    (r.after c).schedule = r.schedule := rfl

theorem readLoop_nil (s : σ) (buffer : Memory) (ptr t : Int) :
    readLoop recv [] s buffer ptr t = ⟨none, buffer, ptr, [], s, []⟩ := rfl

/-- The transport blocks: the call does not return. -/
theorem readLoop_blocked {k : κ} {ks : List κ} {s : σ} {buffer : Memory} {ptr t : Int}
    (h : recv s k t = none) :
    readLoop recv (k :: ks) s buffer ptr t = ⟨none, buffer, ptr, [], s, k :: ks⟩ := by
  simp only [readLoop, h]

/-- A hard failure ends the run with `false`. -/
theorem readLoop_hard {k : κ} {ks : List κ} {s s' : σ} {buffer : Memory} {ptr t : Int}
    {r : RecvResult} (h : recv s k t = some (r, s')) (hr : r.Hard) :
    readLoop recv (k :: ks) s buffer ptr t =
      ⟨some false, store buffer ptr r.bytes, ptr + r.received, [⟨ptr, t, r⟩], s', ks⟩ := by
  obtain ⟨h₁, h₂⟩ := hr
  simp only [readLoop, h, if_pos h₁, if_neg h₂]

/-- A would-block outcome leaves `ptr` and `to_receive` as they were. -/
theorem readLoop_wouldblock {k : κ} {ks : List κ} {s s' : σ} {buffer : Memory} {ptr t : Int}
    {r : RecvResult} (h : recv s k t = some (r, s')) (h₁ : r.received ≤ 0)
    (h₂ : r.error = WSAEWOULDBLOCK) (ht₁ : -2147483648 ≤ t) (ht₂ : t < 2147483648) :
    readLoop recv (k :: ks) s buffer ptr t =
      if t > 0 then (readLoop recv ks s' (store buffer ptr r.bytes) ptr t).after ⟨ptr, t, r⟩
      else ⟨some true, store buffer ptr r.bytes, ptr, [⟨ptr, t, r⟩], s', ks⟩ := by
  have e₁ : ptr + r.received - r.received = ptr := by omega
  have e₂ : toInt32 (toInt32 (t - r.received) + r.received) = t := by
    rw [toInt32_restore, toInt32_of_range ht₁ ht₂]
  simp only [readLoop, h, if_pos h₁, if_pos h₂, e₁, e₂]

/-- A positive count advances `ptr` and lowers `to_receive`. -/
theorem readLoop_data {k : κ} {ks : List κ} {s s' : σ} {buffer : Memory} {ptr t : Int}
    {r : RecvResult} (h : recv s k t = some (r, s')) (h₁ : 0 < r.received) :
    readLoop recv (k :: ks) s buffer ptr t =
      if toInt32 (t - r.received) > 0 then
        (readLoop recv ks s' (store buffer ptr r.bytes) (ptr + r.received)
          (toInt32 (t - r.received))).after ⟨ptr, t, r⟩
      else ⟨some true, store buffer ptr r.bytes, ptr + r.received, [⟨ptr, t, r⟩], s', ks⟩ := by
  have h₁' : ¬ r.received ≤ 0 := by omega
  simp only [readLoop, h, if_neg h₁']

/-- On a transport that respects its contract, a loop that returns `true` has
delivered exactly the count it was entered with when that count is positive,
and nothing otherwise; `ptr` has advanced by as much. -/
theorem readLoop_success_count (ks : List κ) :
    ∀ (s : σ) (buffer : Memory) (ptr t : Int),
      -2147483648 ≤ t → t < 2147483648 →
      (∀ c ∈ (readLoop recv ks s buffer ptr t).calls, c.Conforms) →
      (readLoop recv ks s buffer ptr t).ret = some true →
      (readLoop recv ks s buffer ptr t).ptr = ptr + max t 0 ∧
        accumulated (readLoop recv ks s buffer ptr t).calls = max t 0 := by
  induction ks with
  | nil => intro s buffer ptr t _ _ _ h; simp [readLoop_nil] at h
  | cons k ks ih =>
    intro s buffer ptr t ht₁ ht₂ hc hret
    cases hrecv : recv s k t with
    | none => rw [readLoop_blocked recv hrecv] at hret; simp at hret
    | some p =>
      obtain ⟨r, s'⟩ := p
      by_cases hpos : 0 < r.received
      · rw [readLoop_data recv hrecv hpos] at hc hret ⊢
        by_cases hgo : toInt32 (t - r.received) > 0
        · rw [if_pos hgo] at hc hret ⊢
          simp only [after_calls, after_ret, after_ptr, List.mem_cons, forall_eq_or_imp] at hc hret ⊢
          obtain ⟨hc₀, hc⟩ := hc
          have hconf : r.received ≤ t := by
            rcases hc₀ with ⟨_, h, _⟩ | ⟨h, _⟩
            · exact h
            · simp only at h; omega
          have hr := toInt32_range (t - r.received)
          have e : toInt32 (t - r.received) = t - r.received :=
            toInt32_of_range (by omega) (by omega)
          rw [e] at hc hret hgo hr ⊢
          obtain ⟨ih₁, ih₂⟩ := ih s' _ _ _ hr.1 hr.2 hc hret
          refine ⟨by rw [ih₁]; omega, ?_⟩
          simp only [accumulated, if_pos hpos, ih₂]; omega
        · rw [if_neg hgo] at hc hret ⊢
          simp only [List.mem_singleton, forall_eq] at hc
          have hconf : r.received ≤ t := by
            rcases hc with ⟨_, h, _⟩ | ⟨h, _⟩
            · exact h
            · simp only at h; omega
          have e : toInt32 (t - r.received) = t - r.received :=
            toInt32_of_range (by omega) (by omega)
          rw [e] at hgo
          refine ⟨by simp only; omega, ?_⟩
          simp only [accumulated, if_pos hpos]; omega
      · have hle : r.received ≤ 0 := by omega
        by_cases hwb : r.error = WSAEWOULDBLOCK
        · rw [readLoop_wouldblock recv hrecv hle hwb ht₁ ht₂] at hc hret ⊢
          by_cases hgo : t > 0
          · rw [if_pos hgo] at hc hret ⊢
            simp only [after_calls, after_ret, after_ptr, List.mem_cons, forall_eq_or_imp] at hc hret ⊢
            obtain ⟨ih₁, ih₂⟩ := ih s' _ _ _ ht₁ ht₂ hc.2 hret
            refine ⟨ih₁, ?_⟩
            simp only [accumulated, if_neg hpos, ih₂]; omega
          · rw [if_neg hgo]
            refine ⟨by simp only; omega, ?_⟩
            simp only [accumulated, if_neg hpos]; omega
        · rw [readLoop_hard recv hrecv ⟨hle, hwb⟩] at hret; simp at hret

/-- A call with a hard failure is the last call of the loop, which then
returns `false`. -/
theorem readLoop_hard_last (ks : List κ) :
    ∀ (s : σ) (buffer : Memory) (ptr t : Int) (pre post : List RecvCall) (c : RecvCall),
      -2147483648 ≤ t → t < 2147483648 →
      (readLoop recv ks s buffer ptr t).calls = pre ++ c :: post → c.result.Hard →
      (readLoop recv ks s buffer ptr t).ret = some false ∧ post = [] := by
  induction ks with
  | nil => intro s buffer ptr t pre post c _ _ h; simp [readLoop_nil] at h
  | cons k ks ih =>
    intro s buffer ptr t pre post c ht₁ ht₂ hcalls hhard
    cases hrecv : recv s k t with
    | none => rw [readLoop_blocked recv hrecv] at hcalls; simp at hcalls
    | some p =>
      obtain ⟨r, s'⟩ := p
      have tail_case : ∀ (R : ReadResult σ κ) (c₀ : RecvCall), ¬ c₀.result.Hard →
          (R.after c₀).calls = pre ++ c :: post →
          ∃ pre', R.calls = pre' ++ c :: post := by
        intro R c₀ hc₀ h
        cases pre with
        | nil =>
          simp only [after_calls, List.nil_append, List.cons.injEq] at h
          exact absurd (h.1 ▸ hhard) hc₀
        | cons x xs =>
          simp only [after_calls, List.cons_append, List.cons.injEq] at h
          exact ⟨xs, h.2⟩
      have single_case : ∀ (c₀ : RecvCall), ¬ c₀.result.Hard →
          [c₀] = pre ++ c :: post → False := by
        intro c₀ hc₀ h
        cases pre with
        | nil =>
          simp only [List.nil_append, List.cons.injEq] at h
          exact hc₀ (h.1 ▸ hhard)
        | cons x xs => simp at h
      by_cases hpos : 0 < r.received
      · have hnh : ¬ (RecvCall.mk ptr t r).result.Hard := fun h => by
          have := h.1; simp only at this; omega
        rw [readLoop_data recv hrecv hpos] at hcalls ⊢
        have hr := toInt32_range (t - r.received)
        by_cases hgo : toInt32 (t - r.received) > 0
        · rw [if_pos hgo] at hcalls ⊢
          obtain ⟨pre', h'⟩ := tail_case _ _ hnh hcalls
          simpa using ih s' _ _ _ pre' post c hr.1 hr.2 h' hhard
        · rw [if_neg hgo] at hcalls
          exact (single_case _ hnh hcalls).elim
      · have hle : r.received ≤ 0 := by omega
        by_cases hwb : r.error = WSAEWOULDBLOCK
        · have hnh : ¬ (RecvCall.mk ptr t r).result.Hard := fun h => h.2 hwb
          rw [readLoop_wouldblock recv hrecv hle hwb ht₁ ht₂] at hcalls ⊢
          by_cases hgo : t > 0
          · rw [if_pos hgo] at hcalls ⊢
            obtain ⟨pre', h'⟩ := tail_case _ _ hnh hcalls
            simpa using ih s' _ _ _ pre' post c ht₁ ht₂ h' hhard
          · rw [if_neg hgo] at hcalls
            exact (single_case _ hnh hcalls).elim
        · rw [readLoop_hard recv hrecv ⟨hle, hwb⟩] at hcalls ⊢
          refine ⟨rfl, ?_⟩
          cases pre with
          | nil => simp only [List.nil_append, List.cons.injEq] at hcalls; exact hcalls.2.symm
          | cons x xs => simp at hcalls

/-- The unused part of the schedule is what is left after one choice per
completed call, unless the transport blocked. -/
theorem readLoop_schedule (ks : List κ) :
    ∀ (s : σ) (buffer : Memory) (ptr t : Int),
      (readLoop recv ks s buffer ptr t).schedule =
        ks.drop (readLoop recv ks s buffer ptr t).calls.length := by
  induction ks with
  | nil => intro s buffer ptr t; rfl
  | cons k ks ih =>
    intro s buffer ptr t
    simp only [readLoop]
    cases hrecv : recv s k t with
    | none => rfl
    | some p =>
      obtain ⟨r, s'⟩ := p
      simp only
      split_ifs <;> simp [ih]

/-- On a transport that respects its contract, the bytes delivered by the
loop number at most the count the loop was entered with, and every call stores
inside the window of that many bytes from the entry value of `ptr`. -/
theorem readLoop_bounds (ks : List κ) :
    ∀ (s : σ) (buffer : Memory) (ptr t : Int),
      -2147483648 ≤ t → t < 2147483648 →
      (∀ c ∈ (readLoop recv ks s buffer ptr t).calls, c.Conforms) →
      0 ≤ accumulated (readLoop recv ks s buffer ptr t).calls ∧
        accumulated (readLoop recv ks s buffer ptr t).calls ≤ max t 0 ∧
        ∀ c ∈ (readLoop recv ks s buffer ptr t).calls,
          ptr ≤ c.ptr ∧ c.ptr + (c.result.bytes.length : Int) ≤ ptr + max t 0 := by
  induction ks with
  | nil =>
    intro s buffer ptr t _ _ _
    simp only [readLoop_nil, accumulated, List.not_mem_nil, false_implies, implies_true,
      and_true]
    omega
  | cons k ks ih =>
    intro s buffer ptr t ht₁ ht₂ hc
    cases hrecv : recv s k t with
    | none =>
      rw [readLoop_blocked recv hrecv]
      simp only [accumulated, List.not_mem_nil, false_implies, implies_true, and_true]
      omega
    | some p =>
      obtain ⟨r, s'⟩ := p
      by_cases hpos : 0 < r.received
      · rw [readLoop_data recv hrecv hpos] at hc ⊢
        have hconf : ∀ c₀ : RecvCall, c₀ = ⟨ptr, t, r⟩ → c₀.Conforms →
            r.received ≤ t ∧ (r.bytes.length : Int) = r.received := by
          intro c₀ e hc₀
          subst e
          rcases hc₀ with ⟨_, h, h'⟩ | ⟨h, _⟩
          · exact ⟨h, h'⟩
          · have h' : r.received ≤ 0 := h
            omega
        by_cases hgo : toInt32 (t - r.received) > 0
        · rw [if_pos hgo] at hc ⊢
          simp only [after_calls, List.mem_cons, forall_eq_or_imp] at hc ⊢
          obtain ⟨hc₀, hc⟩ := hc
          obtain ⟨hle, hlen⟩ := hconf _ rfl hc₀
          have e : toInt32 (t - r.received) = t - r.received :=
            toInt32_of_range (by omega) (by omega)
          rw [e] at hc hgo ⊢
          obtain ⟨ih₀, ih₁, ih₂⟩ := ih s' _ _ _ (by omega) (by omega) hc
          refine ⟨?_, ?_, ?_, ?_⟩
          · simp only [accumulated, if_pos hpos]; omega
          · simp only [accumulated, if_pos hpos]; omega
          · omega
          · intro c hcmem
            have := ih₂ c hcmem
            omega
        · rw [if_neg hgo] at hc ⊢
          simp only [List.mem_singleton, forall_eq] at hc ⊢
          obtain ⟨hle, hlen⟩ := hconf _ rfl hc
          simp only [accumulated, if_pos hpos]
          omega
      · have hle : r.received ≤ 0 := by omega
        have hconf : ∀ c₀ : RecvCall, c₀ = ⟨ptr, t, r⟩ → c₀.Conforms →
            (r.bytes.length : Int) = 0 := by
          intro c₀ e hc₀
          subst e
          rcases hc₀ with ⟨h, _, _⟩ | ⟨_, h⟩
          · have h' : 1 ≤ r.received := h
            omega
          · have h' : r.bytes = [] := h
            simp [h']
        by_cases hwb : r.error = WSAEWOULDBLOCK
        · rw [readLoop_wouldblock recv hrecv hle hwb ht₁ ht₂] at hc ⊢
          by_cases hgo : t > 0
          · rw [if_pos hgo] at hc ⊢
            simp only [after_calls, List.mem_cons, forall_eq_or_imp] at hc ⊢
            obtain ⟨hc₀, hc⟩ := hc
            have hlen := hconf _ rfl hc₀
            obtain ⟨ih₀, ih₁, ih₂⟩ := ih s' _ _ _ ht₁ ht₂ hc
            refine ⟨?_, ?_, ?_, ih₂⟩
            · simp only [accumulated, if_neg hpos]; omega
            · simp only [accumulated, if_neg hpos]; omega
            · omega
          · rw [if_neg hgo] at hc ⊢
            simp only [List.mem_singleton, forall_eq] at hc ⊢
            have hlen := hconf _ rfl hc
            simp only [accumulated, if_neg hpos]
            omega
        · rw [readLoop_hard recv hrecv ⟨hle, hwb⟩] at hc ⊢
          simp only [List.mem_singleton, forall_eq] at hc ⊢
          have hlen := hconf _ rfl hc
          simp only [accumulated, if_neg hpos]
          omega

/-- Every call of the loop stores at the entry value of `ptr` advanced by the
number of bytes the calls before it delivered. -/
theorem readLoop_offsets (ks : List κ) :
    ∀ (s : σ) (buffer : Memory) (ptr t : Int) (pre post : List RecvCall) (c : RecvCall),
      -2147483648 ≤ t → t < 2147483648 →
      (readLoop recv ks s buffer ptr t).calls = pre ++ c :: post →
      c.ptr = ptr + accumulated pre := by
  induction ks with
  | nil => intro s buffer ptr t pre post c _ _ h; simp [readLoop_nil] at h
  | cons k ks ih =>
    intro s buffer ptr t pre post c ht₁ ht₂ hcalls
    have split : ∀ (c₀ : RecvCall) (rest : List RecvCall), c₀ :: rest = pre ++ c :: post →
        (pre = [] ∧ c = c₀) ∨ ∃ xs, pre = c₀ :: xs ∧ rest = xs ++ c :: post := by
      intro c₀ rest h
      cases pre with
      | nil =>
        simp only [List.nil_append, List.cons.injEq] at h
        exact Or.inl ⟨rfl, h.1.symm⟩
      | cons x xs =>
        simp only [List.cons_append, List.cons.injEq] at h
        exact Or.inr ⟨xs, by rw [h.1], h.2⟩
    cases hrecv : recv s k t with
    | none => rw [readLoop_blocked recv hrecv] at hcalls; simp at hcalls
    | some p =>
      obtain ⟨r, s'⟩ := p
      by_cases hpos : 0 < r.received
      · rw [readLoop_data recv hrecv hpos] at hcalls
        have hr := toInt32_range (t - r.received)
        by_cases hgo : toInt32 (t - r.received) > 0
        · rw [if_pos hgo, after_calls] at hcalls
          rcases split _ _ hcalls with ⟨e₁, e₂⟩ | ⟨xs, e₁, e₂⟩
          · subst e₁ e₂; simp [accumulated]
          · subst e₁
            have := ih s' _ _ _ xs post c hr.1 hr.2 e₂
            simp only [accumulated, if_pos hpos]
            omega
        · rw [if_neg hgo] at hcalls
          rcases split _ _ hcalls with ⟨e₁, e₂⟩ | ⟨xs, _, e₂⟩
          · subst e₁ e₂; simp [accumulated]
          · simp at e₂
      · have hle : r.received ≤ 0 := by omega
        by_cases hwb : r.error = WSAEWOULDBLOCK
        · rw [readLoop_wouldblock recv hrecv hle hwb ht₁ ht₂] at hcalls
          by_cases hgo : t > 0
          · rw [if_pos hgo, after_calls] at hcalls
            rcases split _ _ hcalls with ⟨e₁, e₂⟩ | ⟨xs, e₁, e₂⟩
            · subst e₁ e₂; simp [accumulated]
            · subst e₁
              have := ih s' _ _ _ xs post c ht₁ ht₂ e₂
              simp only [accumulated, if_neg hpos]
              omega
          · rw [if_neg hgo] at hcalls
            rcases split _ _ hcalls with ⟨e₁, e₂⟩ | ⟨xs, _, e₂⟩
            · subst e₁ e₂; simp [accumulated]
            · simp at e₂
        · rw [readLoop_hard recv hrecv ⟨hle, hwb⟩] at hcalls
          rcases split _ _ hcalls with ⟨e₁, e₂⟩ | ⟨xs, _, e₂⟩
          · subst e₁ e₂; simp [accumulated]
          · simp at e₂

/-- The first call of the loop is made at the entry values of `ptr` and
`to_receive`; a run without a completed call has not returned. -/
theorem readLoop_first_call (ks : List κ) (s : σ) (buffer : Memory) (ptr t : Int) :
    (∀ d rest, (readLoop recv ks s buffer ptr t).calls = d :: rest → d.ptr = ptr ∧ d.len = t) ∧
      ((readLoop recv ks s buffer ptr t).calls = [] →
        (readLoop recv ks s buffer ptr t).ret = none) := by
  cases ks with
  | nil => simp [readLoop_nil]
  | cons k ks =>
    cases hrecv : recv s k t with
    | none => rw [readLoop_blocked recv hrecv]; simp
    | some p =>
      obtain ⟨r, s'⟩ := p
      simp only [readLoop, hrecv]
      split_ifs <;>
        simp only [after_calls, after_ret, List.cons.injEq, and_imp, reduceCtorEq,
          false_implies, and_true] <;>
        (intro d rest hd _; subst hd; exact ⟨rfl, rfl⟩)

/-- Entered with a count that is not positive, the loop makes one call when
the outcome is not a positive count: it returns `true` on would-block and
`false` otherwise, without a second iteration. -/
theorem readLoop_nonpos {k : κ} {ks : List κ} {s s' : σ} {buffer : Memory} {ptr t : Int}
    {r : RecvResult} (h : recv s k t = some (r, s')) (ht : t ≤ 0) (ht₁ : -2147483648 ≤ t)
    (hr : r.received ≤ 0) :
    (readLoop recv (k :: ks) s buffer ptr t).ret = some (decide (r.error = WSAEWOULDBLOCK)) ∧
      (readLoop recv (k :: ks) s buffer ptr t).calls = [⟨ptr, t, r⟩] ∧
      (readLoop recv (k :: ks) s buffer ptr t).buffer = store buffer ptr r.bytes ∧
      (readLoop recv (k :: ks) s buffer ptr t).schedule = ks ∧
      (readLoop recv (k :: ks) s buffer ptr t).socket = s' := by
  by_cases hwb : r.error = WSAEWOULDBLOCK
  · rw [readLoop_wouldblock recv h hr hwb ht₁ (by omega), if_neg (by omega)]
    simp [hwb]
  · rw [readLoop_hard recv h ⟨hr, hwb⟩]
    simp [hwb]

/-- Entered with a positive count, the loop requests a positive count in every
call. -/
theorem readLoop_len_pos (ks : List κ) :
    ∀ (s : σ) (buffer : Memory) (ptr t : Int),
      0 < t → t < 2147483648 →
      ∀ c ∈ (readLoop recv ks s buffer ptr t).calls, 0 < c.len ∧ c.len < 2147483648 := by
  induction ks with
  | nil => intro s buffer ptr t _ _ c hc; simp [readLoop_nil] at hc
  | cons k ks ih =>
    intro s buffer ptr t ht₁ ht₂ c hc
    cases hrecv : recv s k t with
    | none => rw [readLoop_blocked recv hrecv] at hc; simp at hc
    | some p =>
      obtain ⟨r, s'⟩ := p
      by_cases hpos : 0 < r.received
      · rw [readLoop_data recv hrecv hpos] at hc
        have hr := toInt32_range (t - r.received)
        by_cases hgo : toInt32 (t - r.received) > 0
        · rw [if_pos hgo, after_calls, List.mem_cons] at hc
          rcases hc with e | hc
          · subst e; exact ⟨ht₁, ht₂⟩
          · exact ih s' _ _ _ hgo hr.2 c hc
        · rw [if_neg hgo, List.mem_singleton] at hc
          subst hc; exact ⟨ht₁, ht₂⟩
      · have hle : r.received ≤ 0 := by omega
        by_cases hwb : r.error = WSAEWOULDBLOCK
        · rw [readLoop_wouldblock recv hrecv hle hwb (by omega) ht₂, if_pos ht₁, after_calls,
            List.mem_cons] at hc
          rcases hc with e | hc
          · subst e; exact ⟨ht₁, ht₂⟩
          · exact ih s' _ _ _ ht₁ ht₂ c hc
        · rw [readLoop_hard recv hrecv ⟨hle, hwb⟩, List.mem_singleton] at hc
          subst hc; exact ⟨ht₁, ht₂⟩

/-- A list that starts with `c₀` and is split around `c` either has `c = c₀`
in front or has `c₀` in front of the part before `c`. -/
theorem cons_eq_append_cons {α : Type} {c₀ c : α} {rest pre post : List α}
    (h : c₀ :: rest = pre ++ c :: post) :
    (pre = [] ∧ c = c₀ ∧ post = rest) ∨ ∃ xs, pre = c₀ :: xs ∧ rest = xs ++ c :: post := by
  cases pre with
  | nil =>
    simp only [List.nil_append, List.cons.injEq] at h
    exact Or.inl ⟨rfl, h.1.symm, h.2.symm⟩
  | cons x xs =>
    simp only [List.cons_append, List.cons.injEq] at h
    exact Or.inr ⟨xs, by rw [h.1], h.2⟩

/-- Two consecutive calls of the loop: after a positive count the next call is
made past the bytes delivered, for the count that is left; after any other
outcome it is made at the same place for the same count. -/
theorem readLoop_next (ks : List κ) :
    ∀ (s : σ) (buffer : Memory) (ptr t : Int) (pre post : List RecvCall) (c d : RecvCall),
      -2147483648 ≤ t → t < 2147483648 →
      (readLoop recv ks s buffer ptr t).calls = pre ++ c :: d :: post →
      (0 < c.result.received →
          d.ptr = c.ptr + c.result.received ∧ d.len = toInt32 (c.len - c.result.received)) ∧
        (c.result.received ≤ 0 → d.ptr = c.ptr ∧ d.len = c.len) := by
  induction ks with
  | nil => intro s buffer ptr t pre post c d _ _ h; simp [readLoop_nil] at h
  | cons k ks ih =>
    intro s buffer ptr t pre post c d ht₁ ht₂ hcalls
    cases hrecv : recv s k t with
    | none => rw [readLoop_blocked recv hrecv] at hcalls; simp at hcalls
    | some p =>
      obtain ⟨r, s'⟩ := p
      by_cases hpos : 0 < r.received
      · rw [readLoop_data recv hrecv hpos] at hcalls
        have hr := toInt32_range (t - r.received)
        by_cases hgo : toInt32 (t - r.received) > 0
        · rw [if_pos hgo, after_calls] at hcalls
          rcases cons_eq_append_cons hcalls with ⟨_, e₂, e₃⟩ | ⟨xs, _, e₂⟩
          · subst e₂
            have hd := (readLoop_first_call recv ks s' _ _ _).1 d post e₃.symm
            exact ⟨fun _ => hd, fun h => absurd h (by simp only; omega)⟩
          · exact ih s' _ _ _ xs post c d hr.1 hr.2 e₂
        · rw [if_neg hgo] at hcalls
          rcases cons_eq_append_cons hcalls with ⟨_, _, e₃⟩ | ⟨xs, _, e₂⟩
          · simp at e₃
          · simp at e₂
      · have hle : r.received ≤ 0 := by omega
        by_cases hwb : r.error = WSAEWOULDBLOCK
        · rw [readLoop_wouldblock recv hrecv hle hwb ht₁ ht₂] at hcalls
          by_cases hgo : t > 0
          · rw [if_pos hgo, after_calls] at hcalls
            rcases cons_eq_append_cons hcalls with ⟨_, e₂, e₃⟩ | ⟨xs, _, e₂⟩
            · subst e₂
              have hd := (readLoop_first_call recv ks s' _ _ _).1 d post e₃.symm
              exact ⟨fun h => absurd h (by simp only; omega), fun _ => hd⟩
            · exact ih s' _ _ _ xs post c d ht₁ ht₂ e₂
          · rw [if_neg hgo] at hcalls
            rcases cons_eq_append_cons hcalls with ⟨_, _, e₃⟩ | ⟨xs, _, e₂⟩
            · simp at e₃
            · simp at e₂
        · rw [readLoop_hard recv hrecv ⟨hle, hwb⟩] at hcalls
          rcases cons_eq_append_cons hcalls with ⟨_, _, e₃⟩ | ⟨xs, _, e₂⟩
          · simp at e₃
          · simp at e₂

/-- Entered with a positive count, the loop does not return on a would-block
outcome: a run whose last completed call ended in would-block has not
returned. -/
theorem readLoop_wouldblock_not_last (ks : List κ) :
    ∀ (s : σ) (buffer : Memory) (ptr t : Int) (pre : List RecvCall) (c : RecvCall),
      0 < t → t < 2147483648 →
      (readLoop recv ks s buffer ptr t).calls = pre ++ [c] → c.result.WouldBlock →
      (readLoop recv ks s buffer ptr t).ret = none := by
  induction ks with
  | nil => intro s buffer ptr t pre c _ _ h; simp [readLoop_nil] at h
  | cons k ks ih =>
    intro s buffer ptr t pre c ht₁ ht₂ hcalls hc
    cases hrecv : recv s k t with
    | none => rw [readLoop_blocked recv hrecv] at hcalls; simp at hcalls
    | some p =>
      obtain ⟨r, s'⟩ := p
      by_cases hpos : 0 < r.received
      · rw [readLoop_data recv hrecv hpos] at hcalls ⊢
        have hr := toInt32_range (t - r.received)
        by_cases hgo : toInt32 (t - r.received) > 0
        · rw [if_pos hgo] at hcalls ⊢
          rw [after_calls] at hcalls
          rw [after_ret]
          rcases cons_eq_append_cons hcalls with ⟨_, e₂, _⟩ | ⟨xs, _, e₂⟩
          · subst e₂; exact absurd hc.1 (by simp only; omega)
          · exact ih s' _ _ _ xs c hgo hr.2 e₂ hc
        · rw [if_neg hgo] at hcalls
          rcases cons_eq_append_cons hcalls with ⟨_, e₂, _⟩ | ⟨xs, _, e₂⟩
          · subst e₂; exact absurd hc.1 (by simp only; omega)
          · simp at e₂
      · have hle : r.received ≤ 0 := by omega
        by_cases hwb : r.error = WSAEWOULDBLOCK
        · rw [readLoop_wouldblock recv hrecv hle hwb (by omega) ht₂, if_pos ht₁] at hcalls ⊢
          rw [after_calls] at hcalls
          rw [after_ret]
          rcases cons_eq_append_cons hcalls with ⟨_, _, e₃⟩ | ⟨xs, _, e₂⟩
          · exact (readLoop_first_call recv ks s' _ _ _).2 e₃.symm
          · exact ih s' _ _ _ xs c ht₁ ht₂ e₂ hc
        · rw [readLoop_hard recv hrecv ⟨hle, hwb⟩] at hcalls
          rcases cons_eq_append_cons hcalls with ⟨_, e₂, _⟩ | ⟨xs, _, e₂⟩
          · subst e₂; exact absurd hc.2 hwb
          · simp at e₂

/-- When the transport answers every call and no positive count exceeds the
count requested, the loop entered with a positive count makes at most that
many calls besides those that ended in would-block, and a run that has not
returned has used up a schedule shorter than that count plus the would-block
calls. -/
theorem readLoop_terminates (hresp : ∀ s k len, recv s k len ≠ none) (ks : List κ) :
    ∀ (s : σ) (buffer : Memory) (ptr t : Int),
      0 < t → t < 2147483648 →
      (∀ c ∈ (readLoop recv ks s buffer ptr t).calls,
        0 < c.result.received → c.result.received ≤ c.len) →
      ((readLoop recv ks s buffer ptr t).ret = none →
          (ks.length : Int) + 1 ≤ t + wouldBlocks (readLoop recv ks s buffer ptr t).calls) ∧
        ((readLoop recv ks s buffer ptr t).calls.length : Int) ≤
          t + wouldBlocks (readLoop recv ks s buffer ptr t).calls := by
  induction ks with
  | nil =>
    intro s buffer ptr t ht₁ _ _
    simp only [readLoop_nil, List.length_nil, wouldBlocks]
    omega
  | cons k ks ih =>
    intro s buffer ptr t ht₁ ht₂ hok
    cases hrecv : recv s k t with
    | none => exact absurd hrecv (hresp s k t)
    | some p =>
      obtain ⟨r, s'⟩ := p
      by_cases hpos : 0 < r.received
      · have hnwb : ¬ (RecvCall.mk ptr t r).result.WouldBlock := fun h => by
          have := h.1; simp only at this; omega
        rw [readLoop_data recv hrecv hpos] at hok ⊢
        by_cases hgo : toInt32 (t - r.received) > 0
        · rw [if_pos hgo] at hok ⊢
          simp only [after_calls, after_ret, List.mem_cons, forall_eq_or_imp] at hok ⊢
          have hle : r.received ≤ t := hok.1 hpos
          have e : toInt32 (t - r.received) = t - r.received :=
            toInt32_of_range (by omega) (by omega)
          rw [e] at hok hgo ⊢
          obtain ⟨i₁, i₂⟩ := ih s' _ _ _ hgo (by omega) hok.2
          simp only [List.length_cons, wouldBlocks, if_neg hnwb, Nat.cast_add, Nat.cast_one]
          refine ⟨fun h => ?_, ?_⟩
          · have := i₁ h; omega
          · omega
        · rw [if_neg hgo]
          simp only [List.length_cons, List.length_nil, wouldBlocks, if_neg hnwb, reduceCtorEq,
            false_implies, true_and]
          omega
      · have hle : r.received ≤ 0 := by omega
        by_cases hwb : r.error = WSAEWOULDBLOCK
        · have hiswb : (RecvCall.mk ptr t r).result.WouldBlock := ⟨hle, hwb⟩
          rw [readLoop_wouldblock recv hrecv hle hwb (by omega) ht₂, if_pos ht₁] at hok ⊢
          simp only [after_calls, after_ret, List.mem_cons, forall_eq_or_imp] at hok ⊢
          obtain ⟨i₁, i₂⟩ := ih s' _ _ _ ht₁ ht₂ hok.2
          simp only [List.length_cons, wouldBlocks, if_pos hiswb, Nat.cast_add, Nat.cast_one]
          refine ⟨fun h => ?_, ?_⟩
          · have := i₁ h; omega
          · omega
        · have hnwb : ¬ (RecvCall.mk ptr t r).result.WouldBlock := fun h => hwb h.2
          rw [readLoop_hard recv hrecv ⟨hle, hwb⟩]
          simp only [List.length_cons, List.length_nil, wouldBlocks, if_neg hnwb, reduceCtorEq,
            false_implies, true_and]
          omega

end Loop

/-! ## Would-block outcomes in a scripted run -/

theorem store_nil (mem : Memory) (ptr : Int) : store mem ptr [] = mem := by
  funext a
  unfold store
  rw [if_neg (by simp only [List.length_nil, Nat.cast_zero]; omega)]

theorem scripted_eq (r : RecvResult) (t : Int) : scripted () r t = some (r, ()) := rfl

/-- In a scripted run entered with a positive count, a would-block outcome put
anywhere into the script changes neither the value returned, nor the buffer,
nor the final value of `ptr`. -/
theorem readLoop_insert_wouldblock (wb : RecvResult) (hwb : wb.WouldBlock)
    (hbytes : wb.bytes = []) (post : List RecvResult) (pre : List RecvResult) :
    ∀ (buffer : Memory) (ptr t : Int), 0 < t → t < 2147483648 →
      (readLoop scripted (pre ++ wb :: post) () buffer ptr t).ret =
          (readLoop scripted (pre ++ post) () buffer ptr t).ret ∧
        (readLoop scripted (pre ++ wb :: post) () buffer ptr t).buffer =
          (readLoop scripted (pre ++ post) () buffer ptr t).buffer ∧
        (readLoop scripted (pre ++ wb :: post) () buffer ptr t).ptr =
          (readLoop scripted (pre ++ post) () buffer ptr t).ptr := by
  induction pre with
  | nil =>
    intro buffer ptr t ht₁ ht₂
    rw [List.nil_append, List.nil_append,
      readLoop_wouldblock scripted (scripted_eq wb t) hwb.1 hwb.2 (by omega) ht₂, if_pos ht₁,
      hbytes, store_nil]
    exact ⟨rfl, rfl, rfl⟩
  | cons r pre ih =>
    intro buffer ptr t ht₁ ht₂
    rw [List.cons_append, List.cons_append]
    by_cases hpos : 0 < r.received
    · rw [readLoop_data scripted (scripted_eq r t) hpos,
        readLoop_data scripted (scripted_eq r t) hpos]
      have hr := toInt32_range (t - r.received)
      by_cases hgo : toInt32 (t - r.received) > 0
      · rw [if_pos hgo, if_pos hgo]
        simp only [after_ret, after_buffer, after_ptr]
        exact ih _ _ _ hgo hr.2
      · rw [if_neg hgo, if_neg hgo]
        exact ⟨rfl, rfl, rfl⟩
    · have hle : r.received ≤ 0 := by omega
      by_cases herr : r.error = WSAEWOULDBLOCK
      · rw [readLoop_wouldblock scripted (scripted_eq r t) hle herr (by omega) ht₂,
          readLoop_wouldblock scripted (scripted_eq r t) hle herr (by omega) ht₂,
          if_pos ht₁, if_pos ht₁]
        simp only [after_ret, after_buffer, after_ptr]
        exact ih _ _ _ ht₁ ht₂
      · rw [readLoop_hard scripted (scripted_eq r t) ⟨hle, herr⟩,
          readLoop_hard scripted (scripted_eq r t) ⟨hle, herr⟩]
        exact ⟨rfl, rfl, rfl⟩

/-! ## Memory -/

theorem store_of_lt {mem : Memory} {ptr a : Int} {bytes : List Nat} (h : a < ptr) :
    store mem ptr bytes a = mem a := by
  unfold store
  rw [if_neg (by omega)]

theorem load_length (mem : Memory) (ptr : Int) (n : Nat) : (load mem ptr n).length = n := by
  simp [load]

theorem load_congr {m₁ m₂ : Memory} {ptr : Int} {n : Nat}
    (h : ∀ a, ptr ≤ a → a < ptr + n → m₁ a = m₂ a) : load m₁ ptr n = load m₂ ptr n := by
  unfold load
  apply List.map_congr_left
  intro i hi
  rw [List.mem_range] at hi
  exact h _ (by omega) (by omega)

theorem load_store_self (mem : Memory) (ptr : Int) (bytes : List Nat) :
    load (store mem ptr bytes) ptr bytes.length = bytes := by
  apply List.ext_getElem
  · exact load_length _ _ _
  · intro i h₁ h₂
    simp only [load, List.getElem_map, List.getElem_range, store]
    rw [if_pos (by omega)]
    have e : (ptr + (i : Int) - ptr).toNat = i := by omega
    rw [e, List.getD_eq_getElem _ _ h₂]

theorem load_add (mem : Memory) (ptr : Int) (a b : Nat) :
    load mem ptr (a + b) = load mem ptr a ++ load mem (ptr + a) b := by
  unfold load
  rw [List.range_add, List.map_append, List.map_map]
  congr 1
  apply List.map_congr_left
  intro i _
  simp only [Function.comp_apply, Nat.cast_add]
  congr 1
  omega

/-! ## `read` on the FIFO channel -/

theorem chanRecv_pos {q : List Nat} (c : Nat) {n : Nat} (hn : 0 < n) (hq : q ≠ []) :
    chanRecv q c (n : Int) =
      some (⟨((min (c + 1) (min n q.length) : Nat) : Int),
        q.take (min (c + 1) (min n q.length)), 0⟩, q.drop (min (c + 1) (min n q.length))) := by
  unfold chanRecv
  rw [if_neg (by omega), if_neg (by omega), if_neg hq]
  simp only [Int.toNat_ofNat]

/-- The loop of `read` on the channel, entered with a positive count that the
queue can satisfy and a schedule of at least that many choices: it returns
`true`, it has moved the first `n` bytes of the queue to the `n` bytes from
`ptr` on, in order, and it has touched nothing below `ptr`. -/
theorem readLoop_chan (chunks : List Nat) :
    ∀ (q : List Nat) (buffer : Memory) (ptr : Int) (n : Nat),
      0 < n → n < 2147483648 → n ≤ q.length → n ≤ chunks.length →
      (readLoop chanRecv chunks q buffer ptr n).ret = some true ∧
        (readLoop chanRecv chunks q buffer ptr n).socket = q.drop n ∧
        load (readLoop chanRecv chunks q buffer ptr n).buffer ptr n = q.take n ∧
        (∀ a, a < ptr → (readLoop chanRecv chunks q buffer ptr n).buffer a = buffer a) ∧
        chunks.length ≤ (readLoop chanRecv chunks q buffer ptr n).schedule.length + n ∧
        (readLoop chanRecv chunks q buffer ptr n).ptr = ptr + n := by
  induction chunks with
  | nil => intro q buffer ptr n h₀ _ _ h; simp at h; omega
  | cons c cs ih =>
    intro q buffer ptr n h₀ h₁ h₂ h₃
    have hq : q ≠ [] := by
      intro e; rw [e] at h₂; simp at h₂; omega
    have hm1 : 1 ≤ min (c + 1) (min n q.length) := by omega
    have hmn : min (c + 1) (min n q.length) ≤ n := by omega
    have hmq : min (c + 1) (min n q.length) ≤ q.length := by omega
    generalize hm : min (c + 1) (min n q.length) = m at hm1 hmn hmq
    have hrecv := chanRecv_pos c h₀ hq
    rw [hm] at hrecv
    have hlen : (q.take m).length = m := by simp [hmq]
    have hcast : ((n : Int) - (m : Int)) = ((n - m : Nat) : Int) := by omega
    have e : toInt32 ((n : Int) - (m : Int)) = ((n - m : Nat) : Int) := by
      rw [hcast]; exact toInt32_ofNat_small (by omega)
    rw [readLoop_data chanRecv hrecv (by simp only; omega)]
    simp only [e]
    by_cases hgo : ((n - m : Nat) : Int) > 0
    · rw [if_pos hgo]
      simp only [after_ret, after_socket, after_buffer, after_schedule, after_ptr]
      obtain ⟨i₁, i₂, i₃, i₄, i₅, i₆⟩ := ih (q.drop m) (store buffer ptr (q.take m))
        (ptr + (m : Int)) (n - m) (by omega) (by omega) (by simp; omega)
        (by simp at h₃; omega)
      refine ⟨i₁, ?_, ?_, ?_, ?_, ?_⟩
      · rw [i₂, List.drop_drop]
        congr 1; omega
      · have hfirst : load (readLoop chanRecv cs (q.drop m) (store buffer ptr (q.take m))
            (ptr + (m : Int)) ((n - m : Nat) : Int)).buffer ptr m = q.take m := by
          have := load_store_self buffer ptr (q.take m)
          rw [hlen] at this
          exact (load_congr (fun a _ ha => i₄ a ha)).trans this
        have hsplit := load_add (readLoop chanRecv cs (q.drop m) (store buffer ptr (q.take m))
            (ptr + (m : Int)) ((n - m : Nat) : Int)).buffer ptr m (n - m)
        have htake := List.take_add q m (n - m)
        rw [show m + (n - m) = n by omega] at hsplit htake
        rw [hsplit, htake, hfirst, i₃]
      · intro a ha
        rw [i₄ a (by omega), store_of_lt ha]
      · simp only [List.length_cons]; omega
      · rw [i₆]; omega
    · rw [if_neg hgo]
      have hmeq : m = n := by omega
      subst hmeq
      refine ⟨rfl, rfl, ?_, ?_, ?_, rfl⟩
      · have := load_store_self buffer ptr (q.take m)
        rw [hlen] at this
        exact this
      · intro a ha
        exact store_of_lt ha
      · simp only [List.length_cons]; omega

/-- The method `read` on the channel: the same, from the start of the buffer. -/
theorem read_chan (chunks q : List Nat) (buffer : Memory) (n : Nat)
    (h₀ : 0 < n) (h₁ : n < 2147483648) (h₂ : n ≤ q.length) (h₃ : n ≤ chunks.length) :
    (read chanRecv chunks q buffer n).ret = some true ∧
      (read chanRecv chunks q buffer n).socket = q.drop n ∧
      load (read chanRecv chunks q buffer n).buffer 0 n = q.take n ∧
      chunks.length ≤ (read chanRecv chunks q buffer n).schedule.length + n := by
  unfold read
  rw [toInt32_ofNat_small h₁]
  obtain ⟨r₁, r₂, r₃, _, r₅, _⟩ := readLoop_chan chunks q buffer 0 n h₀ h₁ h₂ h₃
  exact ⟨r₁, r₂, r₃, r₅⟩

/-! ## `write` on transports that accept what is offered -/

theorem write_ret {σ : Type} (send : Send σ) (s : σ) (buffer : List Nat) (size : Nat) :
    (write send s buffer size).ret =
      decide (toSizeT (send s buffer (toInt32 size)).1 = toSizeT size) := rfl

theorem write_sends {σ : Type} (send : Send σ) (s : σ) (buffer : List Nat) (size : Nat) :
    (write send s buffer size).sends =
      [⟨toInt32 size, buffer.take (toInt32 size).toNat, (send s buffer (toInt32 size)).1⟩] := rfl

theorem write_socket {σ : Type} (send : Send σ) (s : σ) (buffer : List Nat) (size : Nat) :
    (write send s buffer size).socket = (send s buffer (toInt32 size)).2 := rfl

theorem chanSend_accepts (q buffer : List Nat) (len : Int) (h : 0 ≤ len) :
    (chanSend q buffer len).1 = len := by
  unfold chanSend
  rw [if_neg (by omega)]

theorem chanSend_state (q buffer : List Nat) (len : Int) (h : 0 ≤ len) :
    (chanSend q buffer len).2 = q ++ buffer.take len.toNat := by
  unfold chanSend
  rw [if_neg (by omega)]

theorem chanSendUpTo_value (limit : Nat) (q buffer : List Nat) (len : Int) (h : 0 ≤ len) :
    chanSendUpTo limit q buffer len =
      (((min limit len.toNat : Nat) : Int), q ++ buffer.take (min limit len.toNat)) := by
  unfold chanSendUpTo
  rw [if_neg (by omega)]

theorem write_accepting {σ : Type} (send : Send σ)
    (hacc : ∀ s b len, 0 ≤ len → (send s b len).1 = len) (s : σ) (buffer : List Nat)
    (size : Nat) (h : size < 2147483648) :
    (write send s buffer size).ret = true ∧
      (write send s buffer size).sends = [⟨(size : Int), buffer.take size, (size : Int)⟩] := by
  have e := toInt32_ofNat_small h
  have hr := hacc s buffer (size : Int) (by omega)
  rw [write_ret, write_sends, e, hr, Int.toNat_ofNat]
  exact ⟨decide_eq_true rfl, rfl⟩

theorem write_chan_socket (q buffer : List Nat) (size : Nat) (h : size < 2147483648) :
    (write chanSend q buffer size).socket = q ++ buffer.take size := by
  rw [write_socket, toInt32_ofNat_small h, chanSend_state _ _ _ (by omega), Int.toNat_ofNat]

theorem write_chanUpTo_socket (limit : Nat) (q buffer : List Nat) (size : Nat)
    (h : size < 2147483648) (hret : (write (chanSendUpTo limit) q buffer size).ret = true) :
    (write (chanSendUpTo limit) q buffer size).socket = q ++ buffer.take size := by
  rw [write_ret, toInt32_ofNat_small h, chanSendUpTo_value _ _ _ _ (by omega),
    Int.toNat_ofNat, decide_eq_true_eq] at hret
  rw [write_socket, toInt32_ofNat_small h, chanSendUpTo_value _ _ _ _ (by omega),
    Int.toNat_ofNat]
  have hmin : min limit size = size := by
    unfold toSizeT at hret
    omega
  simp only [hmin]

/-! ## The length header -/

theorem decodeUInt32_lt (bs : List Nat) : decodeUInt32 bs < 4294967296 := by
  unfold decodeUInt32; omega

theorem decode_encodeUInt32 {n : Nat} (h : n < 4294967296) :
    decodeUInt32 (encodeUInt32 n) = n := by
  simp only [decodeUInt32, encodeUInt32, List.getD_cons_zero, List.getD_cons_succ]
  omega

theorem max_toInt32_le {n : Nat} (h : n < 4294967296) : max (toInt32 (n : Int)) 0 ≤ (n : Int) := by
  unfold toInt32; omega

/-- On a transport that respects its contract, a run of `read` delivers at
most `size` bytes, all of them inside the first `size` bytes of the buffer. -/
theorem read_bounds {σ κ : Type} (recv : Recv σ κ) (ks : List κ) (s : σ) (buffer : Memory)
    (size : Nat) (hsize : size < 4294967296)
    (hconf : ∀ c ∈ (read recv ks s buffer size).calls, c.Conforms) :
    0 ≤ accumulated (read recv ks s buffer size).calls ∧
      accumulated (read recv ks s buffer size).calls ≤ (size : Int) ∧
      ∀ c ∈ (read recv ks s buffer size).calls,
        0 ≤ c.ptr ∧ c.ptr + (c.result.bytes.length : Int) ≤ (size : Int) := by
  have hb := max_toInt32_le hsize
  have hr := toInt32_range (size : Int)
  unfold read at hconf ⊢
  obtain ⟨b₀, b₁, b₂⟩ := readLoop_bounds recv ks s buffer 0 _ hr.1 hr.2 hconf
  refine ⟨b₀, by omega, ?_⟩
  intro c hc
  have := b₂ c hc
  omega

/-! ## `writeString` -/

theorem writeUInt32_eq {σ : Type} (send : Send σ) (s : σ) (value : Nat) :
    writeUInt32 send s value = write send s (encodeUInt32 value) 4 := rfl

theorem writeString_ret {σ : Type} (send : Send σ) (s : σ) (string : List Nat) :
    (writeString send s string).ret =
      ((writeUInt32 send s (toUInt32 ((toUInt32 (stringLength string) : Int) + 1))).ret &&
        (write send (writeUInt32 send s
          (toUInt32 ((toUInt32 (stringLength string) : Int) + 1))).socket string
          (toUInt32 ((toUInt32 (stringLength string) : Int) + 1))).ret) := rfl

theorem writeString_sends {σ : Type} (send : Send σ) (s : σ) (string : List Nat) :
    (writeString send s string).sends =
      (writeUInt32 send s (toUInt32 ((toUInt32 (stringLength string) : Int) + 1))).sends ++
        (write send (writeUInt32 send s
          (toUInt32 ((toUInt32 (stringLength string) : Int) + 1))).socket string
          (toUInt32 ((toUInt32 (stringLength string) : Int) + 1))).sends := rfl

theorem writeString_socket {σ : Type} (send : Send σ) (s : σ) (string : List Nat) :
    (writeString send s string).socket =
      (write send (writeUInt32 send s
        (toUInt32 ((toUInt32 (stringLength string) : Int) + 1))).socket string
        (toUInt32 ((toUInt32 (stringLength string) : Int) + 1))).socket := rfl

theorem stringLength_terminated (str rest : List Nat) (hnul : ∀ b ∈ str, b ≠ 0) :
    stringLength (str ++ 0 :: rest) = str.length := by
  unfold stringLength
  rw [List.takeWhile_append_of_pos (by simpa using hnul)]
  simp

theorem writeString_len (str rest : List Nat) (hnul : ∀ b ∈ str, b ≠ 0)
    (hlen : str.length + 1 < 2147483648) :
    toUInt32 ((toUInt32 (stringLength (str ++ 0 :: rest)) : Int) + 1) = str.length + 1 := by
  rw [stringLength_terminated str rest hnul]
  unfold toUInt32
  omega

theorem take_terminated (str rest : List Nat) :
    (str ++ 0 :: rest).take (str.length + 1) = str ++ [0] := by
  have : str ++ 0 :: rest = (str ++ [0]) ++ rest := by simp
  rw [this]
  exact List.take_left' (by simp)

theorem encodeUInt32_length (n : Nat) : (encodeUInt32 n).length = 4 := rfl

/-- On the channel `writeString` appends the header and the terminated string
to the queue. -/
theorem writeString_chan (q str rest : List Nat) (hnul : ∀ b ∈ str, b ≠ 0)
    (hlen : str.length + 1 < 2147483648) :
    (writeString chanSend q (str ++ 0 :: rest)).ret = true ∧
      (writeString chanSend q (str ++ 0 :: rest)).socket =
        q ++ encodeUInt32 (str.length + 1) ++ (str ++ [0]) := by
  have w₁ := write_accepting chanSend chanSend_accepts q (encodeUInt32 (str.length + 1)) 4
    (by omega)
  have s₁ := write_chan_socket q (encodeUInt32 (str.length + 1)) 4 (by omega)
  have w₂ := write_accepting chanSend chanSend_accepts
    (write chanSend q (encodeUInt32 (str.length + 1)) 4).socket (str ++ 0 :: rest)
    (str.length + 1) hlen
  have s₂ := write_chan_socket (write chanSend q (encodeUInt32 (str.length + 1)) 4).socket
    (str ++ 0 :: rest) (str.length + 1) hlen
  have t₁ : (encodeUInt32 (str.length + 1)).take 4 = encodeUInt32 (str.length + 1) := rfl
  rw [writeString_ret, writeString_socket, writeString_len str rest hnul hlen, writeUInt32_eq,
    w₁.1, w₂.1, s₂, s₁, take_terminated, t₁]
  exact ⟨rfl, rfl⟩

/-- A string whose length plus one does not fit a positive `int` is not
written: the count `(int)size` of the payload write is negative and the
channel refuses it. -/
theorem writeString_huge_payload_fails (n : Nat) (rest : List Nat)
    (h₁ : 2147483648 ≤ n + 1) (h₂ : n + 1 < 4294967296) :
    (writeString chanSend [] (List.replicate n 1 ++ 0 :: rest)).ret = false := by
  have hnul : ∀ b ∈ List.replicate n 1, b ≠ 0 := by
    intro b hb
    rw [List.eq_of_mem_replicate hb]
    exact Nat.one_ne_zero
  have hl : toUInt32 ((toUInt32 (stringLength (List.replicate n 1 ++ 0 :: rest)) : Int) + 1)
      = n + 1 := by
    rw [stringLength_terminated _ rest hnul, List.length_replicate]
    unfold toUInt32
    omega
  have hneg : toInt32 ((n + 1 : Nat) : Int) < 0 := by
    unfold toInt32; omega
  have hsend : ∀ q b, (chanSend q b (toInt32 ((n + 1 : Nat) : Int))).1 = -1 := by
    intro q b
    unfold chanSend
    rw [if_pos hneg]
    rfl
  rw [writeString_ret, hl, write_ret _ _ _ (n + 1), hsend, Bool.and_eq_false_iff]
  right
  rw [decide_eq_false_iff_not]
  unfold toSizeT
  omega

/-! ## Properties of `TCPStream::read` and `TCPStream::write` -/

/-- C1, counterexample.  With `size = 2^32 + 1` and a transport that delivers
one byte, `read` returns `true` although every call conforms to the transport
contract and only one byte was accumulated, not `size`. -/
theorem read_large_size_reports_success :
    (∀ c ∈ (read scripted [⟨1, [7], 0⟩] () zeroMemory 4294967297).calls, c.Conforms) ∧
      (read scripted [⟨1, [7], 0⟩] () zeroMemory 4294967297).ret = some true ∧
      accumulated (read scripted [⟨1, [7], 0⟩] () zeroMemory 4294967297).calls = 1 ∧
      accumulated (read scripted [⟨1, [7], 0⟩] () zeroMemory 4294967297).calls
        ≠ ((4294967297 : Nat) : Int) := by
  decide

/-- C1, amended.  For every transport, schedule, buffer and requested size
below 2^31: when every `::recv` call returns a count between 1 and the count
requested or a non-positive result, and `read` returns `true`, the number of
bytes accumulated over all calls is exactly `size`, and `ptr` ends `size`
bytes after `buffer`. -/
theorem read_success_accumulates_size {σ κ : Type} (recv : Recv σ κ) (ks : List κ) (s : σ)
    (buffer : Memory) (size : Nat) (hsize : size < 2147483648)
    (hconf : ∀ c ∈ (read recv ks s buffer size).calls, c.Conforms)
    (hret : (read recv ks s buffer size).ret = some true) :
    accumulated (read recv ks s buffer size).calls = (size : Int) ∧
      (read recv ks s buffer size).ptr = (size : Int) := by
  have e : toInt32 (size : Int) = size := toInt32_ofNat_small hsize
  unfold read at hconf hret ⊢
  rw [e] at hconf hret ⊢
  obtain ⟨h₁, h₂⟩ := readLoop_success_count recv ks s buffer 0 size (by omega) (by omega)
    hconf hret
  have hmax : max (size : Int) 0 = size := by omega
  rw [hmax] at h₁ h₂
  exact ⟨h₂, by rw [h₁]; omega⟩

/-- C1, witness: three bytes delivered as two bytes, a would-block, one byte. -/
theorem read_success_accumulates_size_witness :
    (3 < 2147483648) ∧
      (∀ c ∈ (read scripted [⟨2, [1, 2], 0⟩, ⟨-1, [], WSAEWOULDBLOCK⟩, ⟨1, [3], 0⟩] ()
        zeroMemory 3).calls, c.Conforms) ∧
      (read scripted [⟨2, [1, 2], 0⟩, ⟨-1, [], WSAEWOULDBLOCK⟩, ⟨1, [3], 0⟩] ()
        zeroMemory 3).ret = some true ∧
      (accumulated (read scripted [⟨2, [1, 2], 0⟩, ⟨-1, [], WSAEWOULDBLOCK⟩, ⟨1, [3], 0⟩] ()
        zeroMemory 3).calls = ((3 : Nat) : Int) ∧
       (read scripted [⟨2, [1, 2], 0⟩, ⟨-1, [], WSAEWOULDBLOCK⟩, ⟨1, [3], 0⟩] ()
        zeroMemory 3).ptr = ((3 : Nat) : Int)) :=
  ⟨by decide, by decide, by decide,
    read_success_accumulates_size scripted
      [⟨2, [1, 2], 0⟩, ⟨-1, [], WSAEWOULDBLOCK⟩, ⟨1, [3], 0⟩] () zeroMemory 3
      (by decide) (by decide) (by decide)⟩

/-- C4, counterexample.  With `size = 2^64 - 1` and a `::send` that returns
the error value -1, the transport accepted fewer bytes than `size` and yet
`write` returns `true`. -/
theorem write_error_value_reports_success :
    (constSend (-1) () [] (toInt32 18446744073709551615)).1 = -1 ∧
      accepted (-1) = 0 ∧ accepted (-1) < 18446744073709551615 ∧
      (write (constSend (-1)) () [] 18446744073709551615).ret = true ∧
      (write (constSend (-1)) () [] 18446744073709551615).sends.length = 1 := by
  decide

/-- C4, amended.  `write` issues exactly one `::send` call, with the count
`(int)size`, and for every buffer, every size and every `int` result of that
call that is a byte count or -1, the case of the result -1 with
`size = 2^64 - 1` apart, it returns `false` whenever the transport accepted
fewer bytes than `size` and returns `true` only when the number of bytes
accepted equals `size`. -/
theorem write_single_send_strict {σ : Type} (send : Send σ) (s : σ) (buffer : List Nat)
    (size : Nat) (hsize : size < 18446744073709551616)
    (hlow : -1 ≤ (send s buffer (toInt32 size)).1)
    (hhigh : (send s buffer (toInt32 size)).1 < 2147483648)
    (hcase : ¬ ((send s buffer (toInt32 size)).1 = -1 ∧ size = 18446744073709551615)) :
    (write send s buffer size).sends =
        [⟨toInt32 size, buffer.take (toInt32 size).toNat, (send s buffer (toInt32 size)).1⟩] ∧
      (write send s buffer size).socket = (send s buffer (toInt32 size)).2 ∧
      (accepted (send s buffer (toInt32 size)).1 < size →
        (write send s buffer size).ret = false) ∧
      ((write send s buffer size).ret = true →
        accepted (send s buffer (toInt32 size)).1 = size) := by
  refine ⟨rfl, rfl, ?_, ?_⟩
  · intro h
    simp only [write, decide_eq_false_iff_not]
    unfold accepted at h
    unfold toSizeT
    omega
  · intro h
    simp only [write, decide_eq_true_eq] at h
    unfold accepted
    unfold toSizeT at h
    omega

/-- C4, witness: a short write of 3 bytes out of 5 is reported as failure. -/
theorem write_single_send_strict_witness :
    (5 < 18446744073709551616) ∧ (-1 ≤ (chanSendUpTo 3 [] [1, 2, 3, 4, 5] (toInt32 5)).1) ∧
      ((chanSendUpTo 3 [] [1, 2, 3, 4, 5] (toInt32 5)).1 < 2147483648) ∧
      (¬ ((chanSendUpTo 3 [] [1, 2, 3, 4, 5] (toInt32 5)).1 = -1 ∧
        5 = 18446744073709551615)) ∧
      ((write (chanSendUpTo 3) [] [1, 2, 3, 4, 5] 5).sends =
          [⟨toInt32 5, [1, 2, 3, 4, 5].take (toInt32 5).toNat,
            (chanSendUpTo 3 [] [1, 2, 3, 4, 5] (toInt32 5)).1⟩] ∧
        (write (chanSendUpTo 3) [] [1, 2, 3, 4, 5] 5).socket =
          (chanSendUpTo 3 [] [1, 2, 3, 4, 5] (toInt32 5)).2 ∧
        (accepted (chanSendUpTo 3 [] [1, 2, 3, 4, 5] (toInt32 5)).1 < 5 →
          (write (chanSendUpTo 3) [] [1, 2, 3, 4, 5] 5).ret = false) ∧
        ((write (chanSendUpTo 3) [] [1, 2, 3, 4, 5] 5).ret = true →
          accepted (chanSendUpTo 3 [] [1, 2, 3, 4, 5] (toInt32 5)).1 = 5)) :=
  ⟨by decide, by decide, by decide, by decide,
    write_single_send_strict (chanSendUpTo 3) [] [1, 2, 3, 4, 5] 5
      (by decide) (by decide) (by decide) (by decide)⟩

/-- C5.  In every run of `read`, for every requested size, a `::recv` call
that returns a zero or negative result whose error code is not would-block is
the last call of the run, and the run returns `false`, whatever was
accumulated by the calls before it. -/
theorem read_hard_error_fails_immediately {σ κ : Type} (recv : Recv σ κ) (ks : List κ)
    (s : σ) (buffer : Memory) (size : Nat) (pre post : List RecvCall) (c : RecvCall)
    (hcalls : (read recv ks s buffer size).calls = pre ++ c :: post)
    (hhard : c.result.Hard) :
    (read recv ks s buffer size).ret = some false ∧ post = [] ∧
      (read recv ks s buffer size).schedule = ks.drop (pre.length + 1) := by
  have hr := toInt32_range (size : Int)
  obtain ⟨h₁, h₂⟩ := readLoop_hard_last recv ks s buffer 0 (toInt32 size) pre post c hr.1 hr.2
    hcalls hhard
  refine ⟨h₁, h₂, ?_⟩
  have := readLoop_schedule recv ks s buffer 0 (toInt32 size)
  unfold read at hcalls ⊢
  rw [this, hcalls, h₂]
  simp

/-- C5, witness: two bytes arrive, then the peer closes; the third scripted
response is never asked for. -/
theorem read_hard_error_fails_immediately_witness :
    ((read scripted [⟨2, [1, 2], 0⟩, ⟨0, [], 0⟩, ⟨1, [3], 0⟩] () zeroMemory 3).calls =
        [⟨0, 3, ⟨2, [1, 2], 0⟩⟩] ++ ⟨2, 1, ⟨0, [], 0⟩⟩ :: []) ∧
      (RecvCall.mk 2 1 ⟨0, [], 0⟩).result.Hard ∧
      ((read scripted [⟨2, [1, 2], 0⟩, ⟨0, [], 0⟩, ⟨1, [3], 0⟩] () zeroMemory 3).ret = some false ∧
        ([] : List RecvCall) = [] ∧
        (read scripted [⟨2, [1, 2], 0⟩, ⟨0, [], 0⟩, ⟨1, [3], 0⟩] () zeroMemory 3).schedule =
          [(⟨2, [1, 2], 0⟩ : RecvResult), ⟨0, [], 0⟩, ⟨1, [3], 0⟩].drop
            ([(⟨0, 3, ⟨2, [1, 2], 0⟩⟩ : RecvCall)].length + 1)) :=
  ⟨by decide, by decide,
    read_hard_error_fails_immediately scripted [⟨2, [1, 2], 0⟩, ⟨0, [], 0⟩, ⟨1, [3], 0⟩] ()
      zeroMemory 3 [⟨0, 3, ⟨2, [1, 2], 0⟩⟩] [] ⟨2, 1, ⟨0, [], 0⟩⟩ (by decide) (by decide)⟩

/-! ## Connection establishment -/

/-- C8.  For every acceptor, address and port and all results of the four
system calls: `start` returns `false` when startup fails, when socket creation
fails, or when bind fails, and then it issues no `listen`; when the three
succeed, the calls are startup, socket creation, bind and one `listen` on the
new socket with backlog 10, and `start` returns `true` exactly when `listen`
reports success. -/
theorem start_result (self : TCPAcceptor) (os : StartResults) (inet_addr : List Nat → Nat)
    (ip : Option (List Nat)) (port : Nat) :
    ((os.wsaStartup ≠ 0 ∨ os.socket = INVALID_SOCKET ∨ os.bind = SOCKET_ERROR) →
        (self.start os inet_addr ip port).ret = false ∧
          ∀ h b, SysCall.listen h b ∉ (self.start os inet_addr ip port).calls) ∧
      (os.wsaStartup = 0 → os.socket ≠ INVALID_SOCKET → os.bind ≠ SOCKET_ERROR →
        (self.start os inet_addr ip port).calls =
            [.wsaStartup (MAKEWORD 2 2), .socket PF_INET SOCK_STREAM IPPROTO_TCP,
              .bind os.socket (makeSockAddr inet_addr ip port), .listen os.socket 10] ∧
          ((self.start os inet_addr ip port).ret = true ↔ os.listen = 0)) := by
  constructor
  · intro h
    unfold TCPAcceptor.start
    by_cases h₁ : os.wsaStartup ≠ 0
    · simp [h₁]
    · by_cases h₂ : os.socket = INVALID_SOCKET
      · simp [h₁, h₂]
      · have h₃ : os.bind = SOCKET_ERROR := by
          rcases h with h | h | h
          · exact absurd h h₁
          · exact absurd h h₂
          · exact h
        simp [h₁, h₂, h₃]
  · intro h₁ h₂ h₃
    unfold TCPAcceptor.start
    simp [h₁, h₂, h₃]

/-- C9.  For every connector, address and port and all results of the three
system calls: `connect` returns null when startup, socket creation or the
connection attempt fails, and the connector is then unchanged; when the three
succeed, the connector stores the new socket handle and the call returns a
stream whose handle is that socket. -/
theorem connect_result (self : TCPConnector) (os : ConnectResults)
    (inet_addr : List Nat → Nat) (ip : Option (List Nat)) (port : Nat) :
    ((os.wsaStartup ≠ 0 ∨ os.socket = INVALID_SOCKET ∨ os.connect ≠ 0) →
        (self.connect os inet_addr ip port).ret = none ∧
          (self.connect os inet_addr ip port).connector = self) ∧
      (os.wsaStartup = 0 → os.socket ≠ INVALID_SOCKET → os.connect = 0 →
        (self.connect os inet_addr ip port).ret = some ⟨os.socket⟩ ∧
          (self.connect os inet_addr ip port).connector.m_socket = os.socket) := by
  constructor
  · intro h
    unfold TCPConnector.connect
    by_cases h₁ : os.wsaStartup ≠ 0
    · simp [h₁]
    · by_cases h₂ : os.socket = INVALID_SOCKET
      · simp [h₁, h₂]
      · have h₃ : os.connect ≠ 0 := by
          rcases h with h | h | h
          · exact absurd h h₁
          · exact absurd h h₂
          · exact h
        simp [h₁, h₂, h₃]
  · intro h₁ h₂ h₃
    unfold TCPConnector.connect
    simp [h₁, h₂, h₃]

/-- C10, the code at the failing input.  A fresh connector whose `connect`
succeeds with the new socket 5 keeps the handle 5 and returns a stream that
holds the handle 5 as well; destroying the stream and the connector closes the
handle twice.  A stream returned by `accept` is the only holder of its handle:
the acceptor keeps its own. -/
theorem connect_shares_handle :
    (TCPConnector.new.connect ⟨0, 5, 0⟩ (fun _ => 0) none 9000).ret = some ⟨5⟩ ∧
      (TCPConnector.new.connect ⟨0, 5, 0⟩ (fun _ => 0) none 9000).connector.m_socket = 5 ∧
      (TCPStream.mk 5).destroy ++
          (TCPConnector.new.connect ⟨0, 5, 0⟩ (fun _ => 0) none 9000).connector.destroy =
        [.closesocket 5, .closesocket 5] ∧
      ((TCPAcceptor.mk 3).accept 7).1.m_socket = 7 := by
  decide

/-! ## The framed string helpers -/

/-- C6.  For every transport, schedule, buffer and `max_size`: the payload
read of `readString` is started only when the length `len` decoded from the
4-byte header is below `max_size`, and it is `read(string, len)`; when the
header read has returned and `len` is `max_size` or more, the assertion fails
(the call does not return `false`), no payload read is started and the buffer
is untouched; the assertion fails in no other case; and on a transport that
respects its contract, at most `max_size - 1` bytes are stored, every one of
them at an offset below `max_size - 1`. -/
theorem readString_never_overruns {σ κ : Type} (recv : Recv σ κ) (ks : List κ) (s : σ)
    (string : Memory) (max_size : Nat) :
    (readString recv ks s string max_size).len =
        decodeUInt32 (load (readString recv ks s string max_size).header.buffer 0 4) ∧
      (∀ p, (readString recv ks s string max_size).payload = some p →
        (readString recv ks s string max_size).len < max_size ∧
          p = read recv (readString recv ks s string max_size).header.schedule
            (readString recv ks s string max_size).header.socket string
            (readString recv ks s string max_size).len) ∧
      ((readString recv ks s string max_size).header.ret ≠ none →
        max_size ≤ (readString recv ks s string max_size).len →
        (readString recv ks s string max_size).outcome = .assertion ∧
          (readString recv ks s string max_size).payload = none ∧
          (readString recv ks s string max_size).string = string) ∧
      ((readString recv ks s string max_size).outcome = .assertion →
        max_size ≤ (readString recv ks s string max_size).len) ∧
      ((∀ p, (readString recv ks s string max_size).payload = some p →
          ∀ c ∈ p.calls, c.Conforms) →
        0 ≤ (readString recv ks s string max_size).stored ∧
          (readString recv ks s string max_size).stored ≤ ((max_size - 1 : Nat) : Int) ∧
          ∀ p, (readString recv ks s string max_size).payload = some p →
            ∀ c ∈ p.calls, 0 ≤ c.ptr ∧
              c.ptr + (c.result.bytes.length : Int) ≤ ((max_size - 1 : Nat) : Int)) := by
  have hlen := decodeUInt32_lt
    (load (read recv ks s (store zeroMemory 0 (encodeUInt32 0)) 4).buffer 0 4)
  unfold readString ASSERT readUInt32
  cases hret : (read recv ks s (store zeroMemory 0 (encodeUInt32 0)) 4).ret with
  | none => simp [hret, ReadStringResult.stored]
  | some ret₁ =>
    by_cases hlt :
        decodeUInt32 (load (read recv ks s (store zeroMemory 0 (encodeUInt32 0)) 4).buffer 0 4)
          < max_size
    · have key : ∀ R : ReadResult σ κ,
          R = read recv (read recv ks s (store zeroMemory 0 (encodeUInt32 0)) 4).schedule
            (read recv ks s (store zeroMemory 0 (encodeUInt32 0)) 4).socket string
            (decodeUInt32
              (load (read recv ks s (store zeroMemory 0 (encodeUInt32 0)) 4).buffer 0 4)) →
          (∀ c ∈ R.calls, c.Conforms) →
          0 ≤ accumulated R.calls ∧ accumulated R.calls ≤ ((max_size - 1 : Nat) : Int) ∧
            ∀ c ∈ R.calls, 0 ≤ c.ptr ∧
              c.ptr + (c.result.bytes.length : Int) ≤ ((max_size - 1 : Nat) : Int) := by
        intro R hR hconf
        rw [hR] at hconf ⊢
        obtain ⟨b₀, b₁, b₂⟩ := read_bounds recv _ _ string _ hlen hconf
        refine ⟨b₀, by omega, ?_⟩
        intro c hc
        have := b₂ c hc
        omega
      cases hp : (read recv (read recv ks s (store zeroMemory 0 (encodeUInt32 0)) 4).schedule
          (read recv ks s (store zeroMemory 0 (encodeUInt32 0)) 4).socket string
          (decodeUInt32
            (load (read recv ks s (store zeroMemory 0 (encodeUInt32 0)) 4).buffer 0 4))).ret with
      | none =>
        simp only [hret, if_pos hlt, hp, ReadStringResult.stored]
        refine ⟨trivial, ?_, ?_, ?_, ?_⟩
        · intro p hp'; simp only [Option.some.injEq] at hp'; exact ⟨hlt, hp'.symm⟩
        · intro _ h; omega
        · intro h; simp at h
        · intro hconf
          obtain ⟨k₀, k₁, k₂⟩ := key _ rfl (hconf _ rfl)
          refine ⟨k₀, k₁, ?_⟩
          intro p hp'; simp only [Option.some.injEq] at hp'; subst hp'; exact k₂
      | some ret₂ =>
        simp only [hret, if_pos hlt, hp, ReadStringResult.stored]
        refine ⟨trivial, ?_, ?_, ?_, ?_⟩
        · intro p hp'; simp only [Option.some.injEq] at hp'; exact ⟨hlt, hp'.symm⟩
        · intro _ h; omega
        · intro h; simp at h
        · intro hconf
          obtain ⟨k₀, k₁, k₂⟩ := key _ rfl (hconf _ rfl)
          refine ⟨k₀, k₁, ?_⟩
          intro p hp'; simp only [Option.some.injEq] at hp'; subst hp'; exact k₂
    · simp only [hret, if_neg hlt, ReadStringResult.stored]
      refine ⟨trivial, ?_, ?_, ?_, ?_⟩
      · intro p hp'; simp at hp'
      · intro _ _; exact ⟨trivial, trivial, trivial⟩
      · intro _; omega
      · intro _
        refine ⟨le_refl _, by omega, ?_⟩
        intro p hp'; simp at hp'

/-- C7.  For every string without an inner terminator whose length plus one
is below 2^31, on a transport that accepts every byte offered, `writeString`
returns `true` and makes exactly two `::send` calls: the first offers the four
bytes of the little-endian encoding of `N = len + 1`, the second offers `N`
bytes, the bytes of the string followed by one terminator byte 0. -/
theorem writeString_wire_format {σ : Type} (send : Send σ) (s₀ : σ) (str rest : List Nat)
    (hacc : ∀ s b len, 0 ≤ len → (send s b len).1 = len)
    (hnul : ∀ b ∈ str, b ≠ 0) (hlen : str.length + 1 < 2147483648) :
    (writeString send s₀ (str ++ 0 :: rest)).ret = true ∧
      (writeString send s₀ (str ++ 0 :: rest)).sends =
        [⟨4, encodeUInt32 (str.length + 1), 4⟩,
          ⟨((str.length + 1 : Nat) : Int), str ++ [0], ((str.length + 1 : Nat) : Int)⟩] ∧
      ((writeString send s₀ (str ++ 0 :: rest)).sends.map SendCall.offered).flatten =
        [(str.length + 1) % 256, (str.length + 1) / 256 % 256, (str.length + 1) / 65536 % 256,
          (str.length + 1) / 16777216 % 256] ++ str ++ [0] := by
  have w₁ := write_accepting send hacc s₀ (encodeUInt32 (str.length + 1)) 4 (by omega)
  have w₂ := write_accepting send hacc (write send s₀ (encodeUInt32 (str.length + 1)) 4).socket
    (str ++ 0 :: rest) (str.length + 1) hlen
  have hsends : (writeString send s₀ (str ++ 0 :: rest)).sends =
      [⟨4, encodeUInt32 (str.length + 1), 4⟩,
        ⟨((str.length + 1 : Nat) : Int), str ++ [0], ((str.length + 1 : Nat) : Int)⟩] := by
    unfold writeString writeUInt32
    simp only [writeString_len str rest hnul hlen]
    rw [w₁.2, w₂.2, take_terminated]
    rfl
  refine ⟨?_, hsends, ?_⟩
  · unfold writeString writeUInt32
    simp only [writeString_len str rest hnul hlen]
    simp only [w₁.1, w₂.1, Bool.and_self]
  · rw [hsends]
    simp [encodeUInt32]

/-- C7, witness: the string "ping" on the FIFO channel. -/
theorem writeString_wire_format_witness :
    (∀ (s b : List Nat) (len : Int), 0 ≤ len → (chanSend s b len).1 = len) ∧
      (∀ b ∈ [112, 105, 110, 103], b ≠ 0) ∧
      ([112, 105, 110, 103].length + 1 < 2147483648) ∧
      ((writeString chanSend [] ([112, 105, 110, 103] ++ 0 :: [])).ret = true ∧
        (writeString chanSend [] ([112, 105, 110, 103] ++ 0 :: [])).sends =
          [⟨4, encodeUInt32 ([112, 105, 110, 103].length + 1), 4⟩,
            ⟨(([112, 105, 110, 103].length + 1 : Nat) : Int), [112, 105, 110, 103] ++ [0],
              (([112, 105, 110, 103].length + 1 : Nat) : Int)⟩] ∧
        ((writeString chanSend [] ([112, 105, 110, 103] ++ 0 :: [])).sends.map
            SendCall.offered).flatten =
          [([112, 105, 110, 103].length + 1) % 256, ([112, 105, 110, 103].length + 1) / 256 % 256,
            ([112, 105, 110, 103].length + 1) / 65536 % 256,
            ([112, 105, 110, 103].length + 1) / 16777216 % 256] ++ [112, 105, 110, 103] ++ [0]) :=
  ⟨chanSend_accepts, by decide, by decide,
    writeString_wire_format chanSend [] [112, 105, 110, 103] [] chanSend_accepts
      (by decide) (by decide)⟩

/-- C3.  On the FIFO channel, for every byte sequence `B` of length `n` with
`1 <= n < 2^31` and every way the network cuts the queue into non-empty chunks
(a schedule of at least `n` choices): when `write(B, n)` returns `true` on one
end, `read(buf, n)` on the other end returns `true`, the first `n` bytes of the
buffer are `B` in order, every chunk was stored at the offset equal to the
number of bytes accumulated before it, and the channel is drained. -/
theorem write_then_read_delivers (B rest chunks : List Nat) (limit : Nat) (buffer : Memory)
    (h₁ : 1 ≤ B.length) (h₂ : B.length < 2147483648) (hsched : B.length ≤ chunks.length)
    (hw : (write (chanSendUpTo limit) [] (B ++ rest) B.length).ret = true) :
    (read chanRecv chunks (write (chanSendUpTo limit) [] (B ++ rest) B.length).socket buffer
        B.length).ret = some true ∧
      load (read chanRecv chunks (write (chanSendUpTo limit) [] (B ++ rest) B.length).socket
        buffer B.length).buffer 0 B.length = B ∧
      (∀ pre c post,
        (read chanRecv chunks (write (chanSendUpTo limit) [] (B ++ rest) B.length).socket buffer
          B.length).calls = pre ++ c :: post → c.ptr = accumulated pre) ∧
      (read chanRecv chunks (write (chanSendUpTo limit) [] (B ++ rest) B.length).socket buffer
        B.length).socket = [] := by
  have hq := write_chanUpTo_socket limit [] (B ++ rest) B.length h₂ hw
  rw [List.nil_append, List.take_left] at hq
  rw [hq]
  obtain ⟨r₁, r₂, r₃, _⟩ := read_chan chunks B buffer B.length (by omega) h₂ (le_refl _) hsched
  refine ⟨r₁, ?_, ?_, ?_⟩
  · rw [r₃, List.take_length]
  · intro pre c post hcalls
    have hr := toInt32_range (B.length : Int)
    have := readLoop_offsets chanRecv chunks B buffer 0 (toInt32 B.length) pre post c hr.1 hr.2
      hcalls
    omega
  · rw [r₂, List.drop_length]

/-- C3, witness: five bytes written at once and read back as chunks of two,
one and two bytes. -/
theorem write_then_read_delivers_witness :
    (1 ≤ [10, 20, 30, 40, 50].length) ∧ ([10, 20, 30, 40, 50].length < 2147483648) ∧
      ([10, 20, 30, 40, 50].length ≤ [1, 0, 6, 0, 0].length) ∧
      ((write (chanSendUpTo 8) [] ([10, 20, 30, 40, 50] ++ [60]) [10, 20, 30, 40, 50].length).ret
        = true) ∧
      ((read chanRecv [1, 0, 6, 0, 0]
          (write (chanSendUpTo 8) [] ([10, 20, 30, 40, 50] ++ [60])
            [10, 20, 30, 40, 50].length).socket zeroMemory
          [10, 20, 30, 40, 50].length).ret = some true ∧
        load (read chanRecv [1, 0, 6, 0, 0]
          (write (chanSendUpTo 8) [] ([10, 20, 30, 40, 50] ++ [60])
            [10, 20, 30, 40, 50].length).socket zeroMemory
          [10, 20, 30, 40, 50].length).buffer 0 [10, 20, 30, 40, 50].length =
            [10, 20, 30, 40, 50] ∧
        (∀ pre c post,
          (read chanRecv [1, 0, 6, 0, 0]
            (write (chanSendUpTo 8) [] ([10, 20, 30, 40, 50] ++ [60])
              [10, 20, 30, 40, 50].length).socket zeroMemory
            [10, 20, 30, 40, 50].length).calls = pre ++ c :: post → c.ptr = accumulated pre) ∧
        (read chanRecv [1, 0, 6, 0, 0]
          (write (chanSendUpTo 8) [] ([10, 20, 30, 40, 50] ++ [60])
            [10, 20, 30, 40, 50].length).socket zeroMemory
          [10, 20, 30, 40, 50].length).socket = []) :=
  ⟨by decide, by decide, by decide, by decide,
    write_then_read_delivers [10, 20, 30, 40, 50] [60] [1, 0, 6, 0, 0] 8 zeroMemory
      (by decide) (by decide) (by decide) (by decide)⟩

/-- C2, counterexample.  The payload "ping" has length 4, below
`max_size = 5`, and `writeString` succeeds, but the declared length is 5 (the
terminator is counted), so the assertion of `readString` fails instead of the
string being returned. -/
theorem ping_round_trip_asserts :
    [112, 105, 110, 103].length < 5 ∧
      (writeString chanSend [] [112, 105, 110, 103, 0]).ret = true ∧
      (readString chanRecv [0, 0, 0, 0, 0, 0, 0, 0, 0]
        (writeString chanSend [] [112, 105, 110, 103, 0]).socket zeroMemory 5).len = 5 ∧
      (readString chanRecv [0, 0, 0, 0, 0, 0, 0, 0, 0]
        (writeString chanSend [] [112, 105, 110, 103, 0]).socket zeroMemory 5).outcome
          = .assertion ∧
      (readString chanRecv [0, 0, 0, 0, 0, 0, 0, 0, 0]
        (writeString chanSend [] [112, 105, 110, 103, 0]).socket zeroMemory 5).outcome
          ≠ .returned true := by
  decide

/-- C2, amended.  On the FIFO channel, for every payload `P` without a
terminator byte and every `max_size` with `len(P) + 1 < max_size` and
`len(P) + 1 < 2^31`, and every way the network cuts the queue into non-empty
chunks (a schedule of at least `len(P) + 5` choices): `writeString(P)` returns
`true`, `readString(buf, max_size)` on the other end returns `true` without
assertion failure, and the buffer then holds the bytes of `P` followed by the
terminator. -/
theorem string_round_trip (P rest chunks : List Nat) (string : Memory) (max_size : Nat)
    (hnul : ∀ b ∈ P, b ≠ 0) (hmax : P.length + 1 < max_size)
    (hlen : P.length + 1 < 2147483648) (hsched : P.length + 5 ≤ chunks.length) :
    (writeString chanSend [] (P ++ 0 :: rest)).ret = true ∧
      (readString chanRecv chunks (writeString chanSend [] (P ++ 0 :: rest)).socket string
        max_size).outcome = .returned true ∧
      load (readString chanRecv chunks (writeString chanSend [] (P ++ 0 :: rest)).socket string
        max_size).string 0 (P.length + 1) = P ++ [0] := by
  obtain ⟨wret, wsock⟩ := writeString_chan [] P rest hnul hlen
  refine ⟨wret, ?_⟩
  rw [wsock, List.nil_append]
  have hqlen : (encodeUInt32 (P.length + 1) ++ (P ++ [0])).length = P.length + 5 := by
    simp only [List.length_append, encodeUInt32_length, List.length_singleton]
    omega
  obtain ⟨hret, hsock, hload, hsch⟩ := read_chan chunks
    (encodeUInt32 (P.length + 1) ++ (P ++ [0])) (store zeroMemory 0 (encodeUInt32 0)) 4
    (by omega) (by omega) (by omega) (by omega)
  have hdrop : (encodeUInt32 (P.length + 1) ++ (P ++ [0])).drop 4 = P ++ [0] :=
    List.drop_left' (encodeUInt32_length _)
  have htake : (encodeUInt32 (P.length + 1) ++ (P ++ [0])).take 4 =
      encodeUInt32 (P.length + 1) := List.take_left' (encodeUInt32_length _)
  rw [hdrop] at hsock
  rw [htake] at hload
  have hdec : decodeUInt32 (encodeUInt32 (P.length + 1)) = P.length + 1 :=
    decode_encodeUInt32 (by omega)
  unfold readString ASSERT readUInt32
  generalize read chanRecv chunks (encodeUInt32 (P.length + 1) ++ (P ++ [0]))
    (store zeroMemory 0 (encodeUInt32 0)) 4 = H at hret hsock hload hsch
  simp only [hret, hload, hdec, if_pos hmax, hsock]
  obtain ⟨pret, _, pload, _⟩ := read_chan H.schedule (P ++ [0]) string (P.length + 1)
    (by omega) hlen (by simp) (by omega)
  generalize read chanRecv H.schedule (P ++ [0]) string (P.length + 1) = Q at pret pload
  rw [pret]
  refine ⟨rfl, ?_⟩
  show load Q.buffer 0 (P.length + 1) = P ++ [0]
  rw [pload]
  exact List.take_of_length_le (by simp)

/-- C2, witness: the payload "ping" read into a buffer of 6 bytes, the queue
cut into chunks of one, two and three bytes. -/
theorem string_round_trip_witness :
    (∀ b ∈ [112, 105, 110, 103], b ≠ 0) ∧ ([112, 105, 110, 103].length + 1 < 6) ∧
      ([112, 105, 110, 103].length + 1 < 2147483648) ∧
      ([112, 105, 110, 103].length + 5 ≤ [0, 1, 2, 0, 1, 2, 0, 1, 2].length) ∧
      ((writeString chanSend [] ([112, 105, 110, 103] ++ 0 :: [])).ret = true ∧
        (readString chanRecv [0, 1, 2, 0, 1, 2, 0, 1, 2]
          (writeString chanSend [] ([112, 105, 110, 103] ++ 0 :: [])).socket zeroMemory
          6).outcome = .returned true ∧
        load (readString chanRecv [0, 1, 2, 0, 1, 2, 0, 1, 2]
          (writeString chanSend [] ([112, 105, 110, 103] ++ 0 :: [])).socket zeroMemory
          6).string 0 ([112, 105, 110, 103].length + 1) = [112, 105, 110, 103] ++ [0]) :=
  ⟨by decide, by decide, by decide, by decide,
    string_round_trip [112, 105, 110, 103] [] [0, 1, 2, 0, 1, 2, 0, 1, 2] zeroMemory 6
      (by decide) (by decide) (by decide) (by decide)⟩

/-! ## Destruction, `accept`, and the integer conversions of `write` -/

theorem close_not_opened (w : Sockets) (h : Nat) : h ∉ (w.close h).opened := by
  unfold Sockets.close
  simp

theorem close_keeps_others (w : Sockets) (h x : Nat) (hx : x ∈ w.opened) (hne : x ≠ h) :
    x ∈ (w.close h).opened := by
  unfold Sockets.close
  simp [hx, hne]

/-- C11.  For every state of the open sockets, whatever happened on them
before, and every stream: after the destructor, run directly or through
`TCPAcceptor::close` or `TCPConnector::close`, the handle of the stream is
not open while every other open handle still is; from then on `::recv` and
`::send` on that handle fail, and `read` on it returns `false`. -/
theorem stream_destroy_closes (w : Sockets) (stream : TCPStream) (acceptor : TCPAcceptor)
    (connector : TCPConnector) :
    stream.destroy = [.closesocket stream.m_socket] ∧
      stream.m_socket ∉ (w.closeAll stream.destroy).opened ∧
      (∀ x ∈ w.opened, x ≠ stream.m_socket → x ∈ (w.closeAll stream.destroy).opened) ∧
      w.closeAll (acceptor.close stream) = w.closeAll stream.destroy ∧
      w.closeAll (connector.close stream) = w.closeAll stream.destroy ∧
      (∀ {σ κ : Type} (recv : Recv σ κ) (s : σ) (k : κ) (len : Int),
        sockRecv (w.closeAll stream.destroy) stream.m_socket recv s k len =
          some (⟨SOCKET_ERROR, [], WSAENOTSOCK⟩, s)) ∧
      (∀ {σ : Type} (send : Send σ) (s : σ) (buffer : List Nat) (len : Int),
        sockSend (w.closeAll stream.destroy) stream.m_socket send s buffer len =
          (SOCKET_ERROR, s)) ∧
      (∀ {σ κ : Type} (recv : Recv σ κ) (s : σ) (k : κ) (ks : List κ) (buffer : Memory)
        (size : Nat),
        (read (sockRecv (w.closeAll stream.destroy) stream.m_socket recv) (k :: ks) s buffer
          size).ret = some false) := by
  have hclosed : stream.m_socket ∉ (w.closeAll stream.destroy).opened :=
    close_not_opened w stream.m_socket
  have hrecv : ∀ {σ κ : Type} (recv : Recv σ κ) (s : σ) (k : κ) (len : Int),
      sockRecv (w.closeAll stream.destroy) stream.m_socket recv s k len =
        some (⟨SOCKET_ERROR, [], WSAENOTSOCK⟩, s) := by
    intro σ κ recv s k len
    unfold sockRecv
    rw [if_neg hclosed]
  refine ⟨rfl, hclosed, ?_, rfl, rfl, hrecv, ?_, ?_⟩
  · intro x hx hne
    exact close_keeps_others w stream.m_socket x hx hne
  · intro σ send s buffer len
    unfold sockSend
    rw [if_neg hclosed]
  · intro σ κ recv s k ks buffer size
    unfold read
    rw [readLoop_hard _ (hrecv recv s k _) ⟨by decide, by decide⟩]

/-- A run of `readString` that returned a value has made both sub-reads, both
have returned, and the value is the conjunction of theirs. -/
theorem readString_returned_inv {σ κ : Type} (recv : Recv σ κ) (ks : List κ) (s : σ)
    (string : Memory) (max_size : Nat) (b : Bool)
    (hret : (readString recv ks s string max_size).outcome = .returned b) :
    ∃ r₁ r₂ p,
      (readString recv ks s string max_size).header.ret = some r₁ ∧
        (readString recv ks s string max_size).header = readUInt32 recv ks s 0 ∧
        (readString recv ks s string max_size).payload = some p ∧
        p = read recv (readString recv ks s string max_size).header.schedule
          (readString recv ks s string max_size).header.socket string
          (readString recv ks s string max_size).len ∧
        p.ret = some r₂ ∧ b = (r₁ && r₂) ∧ (b = true ↔ r₁ = true ∧ r₂ = true) ∧
        (r₁ = false → b = false) := by
  unfold readString ASSERT at hret ⊢
  cases h₁ : (readUInt32 recv ks s 0).ret with
  | none => simp [h₁] at hret
  | some r₁ =>
    by_cases hlt : decodeUInt32 (load (readUInt32 recv ks s 0).buffer 0 4) < max_size
    · cases h₂ : (read recv (readUInt32 recv ks s 0).schedule (readUInt32 recv ks s 0).socket
          string (decodeUInt32 (load (readUInt32 recv ks s 0).buffer 0 4))).ret with
      | none => simp [h₁, hlt, h₂] at hret
      | some r₂ =>
        simp only [h₁, if_pos hlt, h₂, Outcome.returned.injEq, Bool.true_and] at hret ⊢
        refine ⟨r₁, r₂, _, rfl, trivial, rfl, rfl, h₂, hret.symm, ?_, ?_⟩
        · rw [← hret, Bool.and_eq_true]
        · intro h; rw [← hret, h, Bool.false_and]
    · simp [h₁, hlt] at hret

/-- C14.  For every transport, schedule, buffer and `max_size`: when the
header read `read(len)` returns `r₁`, the declared length is below `max_size`
so that the assertion does not fire, and the payload read `read(string, len)`
returns `r₂`, then `readString` returns, and the value is `r₁ && r₂`: it is
`true` exactly when both sub-reads returned `true`, and `false` whenever the
header read returned `false`, whatever the payload read returned. -/
theorem readString_returns_and {σ κ : Type} (recv : Recv σ κ) (ks : List κ) (s : σ)
    (string : Memory) (max_size : Nat) (r₁ r₂ : Bool)
    (h₁ : (readUInt32 recv ks s 0).ret = some r₁)
    (hlt : decodeUInt32 (load (readUInt32 recv ks s 0).buffer 0 4) < max_size)
    (h₂ : (read recv (readUInt32 recv ks s 0).schedule (readUInt32 recv ks s 0).socket string
        (decodeUInt32 (load (readUInt32 recv ks s 0).buffer 0 4))).ret = some r₂) :
    (readString recv ks s string max_size).outcome = .returned (r₁ && r₂) ∧
      ((readString recv ks s string max_size).outcome = .returned true ↔
        r₁ = true ∧ r₂ = true) ∧
      (r₁ = false → (readString recv ks s string max_size).outcome = .returned false) ∧
      (readString recv ks s string max_size).header = readUInt32 recv ks s 0 ∧
      (readString recv ks s string max_size).payload =
        some (read recv (readUInt32 recv ks s 0).schedule (readUInt32 recv ks s 0).socket string
          (decodeUInt32 (load (readUInt32 recv ks s 0).buffer 0 4))) ∧
      (readString recv ks s string max_size).len =
        decodeUInt32 (load (readUInt32 recv ks s 0).buffer 0 4) := by
  have hout : (readString recv ks s string max_size).outcome = .returned (r₁ && r₂) := by
    unfold readString ASSERT
    simp only [h₁, if_pos hlt, h₂, Bool.true_and]
  have hhead : (readString recv ks s string max_size).header = readUInt32 recv ks s 0 := by
    unfold readString ASSERT
    simp only [h₁, if_pos hlt, h₂]
  have hpay : (readString recv ks s string max_size).payload =
      some (read recv (readUInt32 recv ks s 0).schedule (readUInt32 recv ks s 0).socket string
        (decodeUInt32 (load (readUInt32 recv ks s 0).buffer 0 4))) := by
    unfold readString ASSERT
    simp only [h₁, if_pos hlt, h₂]
  have hlen : (readString recv ks s string max_size).len =
      decodeUInt32 (load (readUInt32 recv ks s 0).buffer 0 4) := by
    unfold readString ASSERT
    simp only [h₁, if_pos hlt, h₂]
  refine ⟨hout, ?_, ?_, hhead, hpay, hlen⟩
  · rw [hout, Outcome.returned.injEq, Bool.and_eq_true]
  · intro h
    rw [hout, h, Bool.false_and]

/-- C14, witness.  First run: the header declares 2 bytes, both sub-reads
succeed and `readString` returns `true`.  Second run: the header read takes
two bytes and then fails, the payload read of the one byte declared succeeds,
and `readString` returns `false`. -/
theorem readString_returns_and_witness :
    (((readUInt32 scripted [⟨4, [2, 0, 0, 0], 0⟩, ⟨2, [104, 0], 0⟩] () 0).ret = some true) ∧
      ((decodeUInt32 (load (readUInt32 scripted [⟨4, [2, 0, 0, 0], 0⟩, ⟨2, [104, 0], 0⟩] () 0).buffer 0 4)) < 8) ∧
      ((read scripted (readUInt32 scripted [⟨4, [2, 0, 0, 0], 0⟩, ⟨2, [104, 0], 0⟩] () 0).schedule (readUInt32 scripted [⟨4, [2, 0, 0, 0], 0⟩, ⟨2, [104, 0], 0⟩] () 0).socket zeroMemory
          (decodeUInt32 (load (readUInt32 scripted [⟨4, [2, 0, 0, 0], 0⟩, ⟨2, [104, 0], 0⟩] () 0).buffer 0 4))).ret = some true) ∧
      (readString scripted [⟨4, [2, 0, 0, 0], 0⟩, ⟨2, [104, 0], 0⟩] () zeroMemory 8).outcome = .returned true ∧
      ((readString scripted [⟨4, [2, 0, 0, 0], 0⟩, ⟨2, [104, 0], 0⟩] () zeroMemory 8).outcome = .returned (true && true) ∧
        ((readString scripted [⟨4, [2, 0, 0, 0], 0⟩, ⟨2, [104, 0], 0⟩] () zeroMemory 8).outcome = .returned true ↔ true = true ∧ true = true) ∧
        (true = false → (readString scripted [⟨4, [2, 0, 0, 0], 0⟩, ⟨2, [104, 0], 0⟩] () zeroMemory 8).outcome = .returned false) ∧
        (readString scripted [⟨4, [2, 0, 0, 0], 0⟩, ⟨2, [104, 0], 0⟩] () zeroMemory 8).header = (readUInt32 scripted [⟨4, [2, 0, 0, 0], 0⟩, ⟨2, [104, 0], 0⟩] () 0) ∧
        (readString scripted [⟨4, [2, 0, 0, 0], 0⟩, ⟨2, [104, 0], 0⟩] () zeroMemory 8).payload = some (read scripted (readUInt32 scripted [⟨4, [2, 0, 0, 0], 0⟩, ⟨2, [104, 0], 0⟩] () 0).schedule (readUInt32 scripted [⟨4, [2, 0, 0, 0], 0⟩, ⟨2, [104, 0], 0⟩] () 0).socket zeroMemory
          (decodeUInt32 (load (readUInt32 scripted [⟨4, [2, 0, 0, 0], 0⟩, ⟨2, [104, 0], 0⟩] () 0).buffer 0 4))) ∧
        (readString scripted [⟨4, [2, 0, 0, 0], 0⟩, ⟨2, [104, 0], 0⟩] () zeroMemory 8).len = (decodeUInt32 (load (readUInt32 scripted [⟨4, [2, 0, 0, 0], 0⟩, ⟨2, [104, 0], 0⟩] () 0).buffer 0 4)))) ∧
    (((readUInt32 scripted [⟨2, [1, 0], 0⟩, ⟨0, [], 0⟩, ⟨1, [65], 0⟩] () 0).ret = some false) ∧
      ((decodeUInt32 (load (readUInt32 scripted [⟨2, [1, 0], 0⟩, ⟨0, [], 0⟩, ⟨1, [65], 0⟩] () 0).buffer 0 4)) < 8) ∧
      ((read scripted (readUInt32 scripted [⟨2, [1, 0], 0⟩, ⟨0, [], 0⟩, ⟨1, [65], 0⟩] () 0).schedule (readUInt32 scripted [⟨2, [1, 0], 0⟩, ⟨0, [], 0⟩, ⟨1, [65], 0⟩] () 0).socket zeroMemory
          (decodeUInt32 (load (readUInt32 scripted [⟨2, [1, 0], 0⟩, ⟨0, [], 0⟩, ⟨1, [65], 0⟩] () 0).buffer 0 4))).ret = some true) ∧
      (readString scripted [⟨2, [1, 0], 0⟩, ⟨0, [], 0⟩, ⟨1, [65], 0⟩] () zeroMemory 8).outcome = .returned false ∧
      ((readString scripted [⟨2, [1, 0], 0⟩, ⟨0, [], 0⟩, ⟨1, [65], 0⟩] () zeroMemory 8).outcome = .returned (false && true) ∧
        ((readString scripted [⟨2, [1, 0], 0⟩, ⟨0, [], 0⟩, ⟨1, [65], 0⟩] () zeroMemory 8).outcome = .returned true ↔ false = true ∧ true = true) ∧
        (false = false → (readString scripted [⟨2, [1, 0], 0⟩, ⟨0, [], 0⟩, ⟨1, [65], 0⟩] () zeroMemory 8).outcome = .returned false) ∧
        (readString scripted [⟨2, [1, 0], 0⟩, ⟨0, [], 0⟩, ⟨1, [65], 0⟩] () zeroMemory 8).header = (readUInt32 scripted [⟨2, [1, 0], 0⟩, ⟨0, [], 0⟩, ⟨1, [65], 0⟩] () 0) ∧
        (readString scripted [⟨2, [1, 0], 0⟩, ⟨0, [], 0⟩, ⟨1, [65], 0⟩] () zeroMemory 8).payload = some (read scripted (readUInt32 scripted [⟨2, [1, 0], 0⟩, ⟨0, [], 0⟩, ⟨1, [65], 0⟩] () 0).schedule (readUInt32 scripted [⟨2, [1, 0], 0⟩, ⟨0, [], 0⟩, ⟨1, [65], 0⟩] () 0).socket zeroMemory
          (decodeUInt32 (load (readUInt32 scripted [⟨2, [1, 0], 0⟩, ⟨0, [], 0⟩, ⟨1, [65], 0⟩] () 0).buffer 0 4))) ∧
        (readString scripted [⟨2, [1, 0], 0⟩, ⟨0, [], 0⟩, ⟨1, [65], 0⟩] () zeroMemory 8).len = (decodeUInt32 (load (readUInt32 scripted [⟨2, [1, 0], 0⟩, ⟨0, [], 0⟩, ⟨1, [65], 0⟩] () 0).buffer 0 4)))) :=
  ⟨⟨by decide, by decide, by decide, by decide,
    readString_returns_and scripted [⟨4, [2, 0, 0, 0], 0⟩, ⟨2, [104, 0], 0⟩] () zeroMemory 8 true true
      (by decide) (by decide) (by decide)⟩,
   ⟨by decide, by decide, by decide, by decide,
    readString_returns_and scripted [⟨2, [1, 0], 0⟩, ⟨0, [], 0⟩, ⟨1, [65], 0⟩] () zeroMemory 8 false true
      (by decide) (by decide) (by decide)⟩⟩

/-- C15.  For every acceptor and every result of `::accept`, the invalid
handle included: `accept` issues one `::accept` on the listening handle and
returns a non-null pointer to a new stream whose handle is exactly that
result; whether the pointer is null does not depend on the result. -/
theorem accept_always_returns_stream (self : TCPAcceptor) (result : Nat) :
    self.acceptPointer result = some ⟨result⟩ ∧
      self.acceptPointer result ≠ none ∧
      (self.accept result).1.m_socket = result ∧
      (self.accept result).2 = [.accept self.m_socket] ∧
      self.acceptPointer INVALID_SOCKET = some ⟨INVALID_SOCKET⟩ ∧
      (∀ other : Nat, (self.acceptPointer result).isSome = (self.acceptPointer other).isSome) := by
  refine ⟨rfl, ?_, rfl, rfl, rfl, fun _ => rfl⟩
  intro h
  simp [TCPAcceptor.acceptPointer] at h

theorem signExtend64_eq_toSizeT {result : Int} (h₁ : -2147483648 ≤ result)
    (h₂ : result < 2147483648) : signExtend64 result = toSizeT result := by
  unfold signExtend64 toSizeT
  split_ifs <;> omega

/-- C18.  For every transport, buffer and `size_t` value `size`, the `int`
result of `::send` being `result`: `write` makes one `::send` call whose count
is `size` truncated to 32 bits and read as an `int`; it returns `true` exactly
when the sign extension of `result` to 64 bits equals `size`; hence it returns
`false` for every `size` of 2^31 or more when `result` is not negative, and
`true` when `result` is -1 and `size` is 2^64 - 1. -/
theorem write_integer_conversions {σ : Type} (send : Send σ) (s : σ) (buffer : List Nat)
    (size : Nat) (hsize : size < 18446744073709551616)
    (hlow : -2147483648 ≤ (send s buffer (toInt32 size)).1)
    (hhigh : (send s buffer (toInt32 size)).1 < 2147483648) :
    (write send s buffer size).sends =
        [⟨toInt32 ((size % 4294967296 : Nat) : Int), buffer.take (toInt32 size).toNat,
          (send s buffer (toInt32 size)).1⟩] ∧
      ((write send s buffer size).ret = true ↔
        signExtend64 (send s buffer (toInt32 size)).1 = size) ∧
      (2147483648 ≤ size → 0 ≤ (send s buffer (toInt32 size)).1 →
        (write send s buffer size).ret = false) ∧
      ((send s buffer (toInt32 size)).1 = -1 → size = 18446744073709551615 →
        (write send s buffer size).ret = true) := by
  have hiff : (write send s buffer size).ret = true ↔
      signExtend64 (send s buffer (toInt32 size)).1 = size := by
    rw [write_ret, decide_eq_true_eq, signExtend64_eq_toSizeT hlow hhigh]
    unfold toSizeT
    omega
  have htrunc : toInt32 ((size % 4294967296 : Nat) : Int) = toInt32 (size : Int) := by
    unfold toInt32; omega
  refine ⟨by rw [write_sends, htrunc], hiff, ?_, ?_⟩
  · intro h₁ h₂
    rw [← Bool.not_eq_true, hiff]
    unfold signExtend64
    rw [if_pos h₂]
    omega
  · intro h₁ h₂
    rw [hiff, h₁, h₂]
    decide

/-- C18, witness: `size = 2^64 - 1` and a `::send` that returns -1. -/
theorem write_integer_conversions_witness :
    (18446744073709551615 < 18446744073709551616) ∧
      (-2147483648 ≤ (constSend (-1) () [] (toInt32 18446744073709551615)).1) ∧
      ((constSend (-1) () [] (toInt32 18446744073709551615)).1 < 2147483648) ∧
      ((write (constSend (-1)) () [] 18446744073709551615).sends =
          [⟨toInt32 ((18446744073709551615 % 4294967296 : Nat) : Int),
            ([] : List Nat).take (toInt32 18446744073709551615).toNat,
            (constSend (-1) () [] (toInt32 18446744073709551615)).1⟩] ∧
        ((write (constSend (-1)) () [] 18446744073709551615).ret = true ↔
          signExtend64 (constSend (-1) () [] (toInt32 18446744073709551615)).1 =
            18446744073709551615) ∧
        (2147483648 ≤ 18446744073709551615 →
          0 ≤ (constSend (-1) () [] (toInt32 18446744073709551615)).1 →
          (write (constSend (-1)) () [] 18446744073709551615).ret = false) ∧
        ((constSend (-1) () [] (toInt32 18446744073709551615)).1 = -1 →
          18446744073709551615 = 18446744073709551615 →
          (write (constSend (-1)) () [] 18446744073709551615).ret = true)) :=
  ⟨by decide, by decide, by decide,
    write_integer_conversions (constSend (-1)) () [] 18446744073709551615
      (by decide) (by decide) (by decide)⟩

/-! ## Counts that are not positive, would-block, and termination -/

/-- Entered with a count that is not positive, on a transport that respects
its contract, the loop makes one call and returns as soon as the call does,
`true` on would-block and `false` otherwise; the rest of the schedule is not
used and the buffer is as before. -/
theorem readLoop_nonpos_cases {σ κ : Type} (recv : Recv σ κ) (ks : List κ) (s : σ)
    (buffer : Memory) (ptr t : Int) (ht : t ≤ 0) (ht₁ : -2147483648 ≤ t)
    (hconf : ∀ c ∈ (readLoop recv ks s buffer ptr t).calls, c.Conforms) :
    (((readLoop recv ks s buffer ptr t).calls = [] ∧
          (readLoop recv ks s buffer ptr t).ret = none) ∨
        ∃ k ks' r s', ks = k :: ks' ∧ recv s k t = some (r, s') ∧ r.received ≤ 0 ∧
          (readLoop recv ks s buffer ptr t).calls = [⟨ptr, t, r⟩] ∧
          (readLoop recv ks s buffer ptr t).ret = some (decide (r.error = WSAEWOULDBLOCK)) ∧
          (readLoop recv ks s buffer ptr t).schedule = ks') ∧
      (readLoop recv ks s buffer ptr t).buffer = buffer := by
  cases ks with
  | nil => exact ⟨Or.inl ⟨rfl, rfl⟩, rfl⟩
  | cons k ks' =>
    cases hrecv : recv s k t with
    | none => rw [readLoop_blocked recv hrecv]; exact ⟨Or.inl ⟨rfl, rfl⟩, rfl⟩
    | some p =>
      obtain ⟨r, s'⟩ := p
      have hfirst : (RecvCall.mk ptr t r) ∈ (readLoop recv (k :: ks') s buffer ptr t).calls := by
        simp only [readLoop, hrecv]
        split_ifs <;> simp
      have hc := hconf _ hfirst
      have hle : r.received ≤ 0 := by
        rcases hc with ⟨h₁, h₂, _⟩ | ⟨h, _⟩
        · have h₁' : 1 ≤ r.received := h₁
          have h₂' : r.received ≤ t := h₂
          omega
        · exact h
      have hbytes : r.bytes = [] := by
        rcases hc with ⟨h₁, _, _⟩ | ⟨_, h⟩
        · have h₁' : 1 ≤ r.received := h₁
          omega
        · exact h
      obtain ⟨n₁, n₂, n₃, n₄, _⟩ :=
        @readLoop_nonpos σ κ recv k ks' s s' buffer ptr t r hrecv ht ht₁ hle
      refine ⟨Or.inr ⟨k, ks', r, s', rfl, hrecv, hle, n₂, n₁, n₄⟩, ?_⟩
      rw [n₃, hbytes, store_nil]

/-- When the transport answers the first call, that call is the first of the
run, made at the entry values of `ptr` and `to_receive`. -/
theorem readLoop_head {σ κ : Type} (recv : Recv σ κ) (k : κ) (ks : List κ) (s s' : σ)
    (buffer : Memory) (ptr t : Int) (r : RecvResult) (hrecv : recv s k t = some (r, s')) :
    ∃ rest, (readLoop recv (k :: ks) s buffer ptr t).calls = ⟨ptr, t, r⟩ :: rest := by
  simp only [readLoop, hrecv]
  split_ifs <;> simp

/-- A run has no completed call exactly when the schedule is empty or the
transport blocks on the first call. -/
theorem readLoop_calls_nil_iff {σ κ : Type} (recv : Recv σ κ) (ks : List κ) (s : σ)
    (buffer : Memory) (ptr t : Int) :
    (readLoop recv ks s buffer ptr t).calls = [] ↔
      ks = [] ∨ ∃ k ks', ks = k :: ks' ∧ recv s k t = none := by
  cases ks with
  | nil => simp [readLoop_nil]
  | cons k ks' =>
    cases hrecv : recv s k t with
    | none => rw [readLoop_blocked recv hrecv]; simp [hrecv]
    | some p =>
      obtain ⟨r, s'⟩ := p
      obtain ⟨rest, h⟩ := readLoop_head recv k ks' s s' buffer ptr t r hrecv
      rw [h]
      simp [hrecv]

theorem toInt32_mod (size : Nat) :
    toInt32 ((size % 4294967296 : Nat) : Int) = toInt32 (size : Int) := by
  unfold toInt32; omega

/-- C17.  For every transport that respects its contract, every schedule,
buffer and size, with `t` the value of `size` modulo 2^32 read as an `int32`:
a run of `read` depends on `size` through `t` only; whenever the transport
answers the first call, that call is made, with count `t`, and no call is
completed only when the schedule is empty or the transport blocks; when `t` is
positive a run that returns `true` has accumulated exactly `t` bytes; and when
`t` is not positive and the transport answers the first call, the run is that
one call: `read` returns right after it, `true` on would-block and `false`
otherwise, having accumulated nothing and used none of the rest of the
schedule. -/
theorem read_truncates_size {σ κ : Type} (recv : Recv σ κ) (ks : List κ) (s : σ)
    (buffer : Memory) (size : Nat)
    (hconf : ∀ c ∈ (read recv ks s buffer size).calls, c.Conforms) :
    (∀ size' : Nat, size' % 4294967296 = size % 4294967296 →
        read recv ks s buffer size' = read recv ks s buffer size) ∧
      (∀ k ks' r s', ks = k :: ks' → recv s k (toInt32 ((size % 4294967296 : Nat) : Int)) = some (r, s') →
        ∃ rest, (read recv ks s buffer size).calls = ⟨0, toInt32 ((size % 4294967296 : Nat) : Int), r⟩ :: rest) ∧
      ((read recv ks s buffer size).calls = [] ↔
        ks = [] ∨ ∃ k ks', ks = k :: ks' ∧ recv s k (toInt32 ((size % 4294967296 : Nat) : Int)) = none) ∧
      (0 < toInt32 ((size % 4294967296 : Nat) : Int) → (read recv ks s buffer size).ret = some true →
        accumulated (read recv ks s buffer size).calls = toInt32 ((size % 4294967296 : Nat) : Int)) ∧
      (toInt32 ((size % 4294967296 : Nat) : Int) ≤ 0 → ∀ k ks' r s', ks = k :: ks' → recv s k (toInt32 ((size % 4294967296 : Nat) : Int)) = some (r, s') →
        (read recv ks s buffer size).calls = [⟨0, toInt32 ((size % 4294967296 : Nat) : Int), r⟩] ∧
          (read recv ks s buffer size).ret = some (decide (r.error = WSAEWOULDBLOCK)) ∧
          (read recv ks s buffer size).schedule = ks' ∧
          accumulated (read recv ks s buffer size).calls = 0) := by
  have hr := toInt32_range (size : Int)
  rw [toInt32_mod]
  unfold read at hconf ⊢
  refine ⟨?_, ?_, readLoop_calls_nil_iff recv ks s buffer 0 _, ?_, ?_⟩
  · intro size' h
    rw [← toInt32_mod size', h, toInt32_mod]
  · intro k ks' r s' hks hrecv
    subst hks
    exact readLoop_head recv k ks' s s' buffer 0 _ r hrecv
  · intro hpos hret
    have h := (readLoop_success_count recv ks s buffer 0 _ hr.1 hr.2 hconf hret).2
    rw [h]
    omega
  · intro hle k ks' r s' hks hrecv
    rcases (readLoop_nonpos_cases recv ks s buffer 0 _ hle hr.1 hconf).1 with h | h
    · obtain ⟨rest, hhead⟩ := readLoop_head recv k ks' s s' buffer 0 _ r hrecv
      rw [hks, hhead] at h
      exact absurd h.1 (by simp)
    · obtain ⟨k₀, ks₀, r₀, s₀, e₁, e₂, e₃, e₄, e₅, e₆⟩ := h
      rw [hks, List.cons.injEq] at e₁
      obtain ⟨ek, eks⟩ := e₁
      subst ek eks
      rw [hrecv, Option.some.injEq, Prod.mk.injEq] at e₂
      obtain ⟨er, _⟩ := e₂
      subst er
      refine ⟨e₄, e₅, e₆, ?_⟩
      rw [e₄]
      have hneg : ¬ r.received > 0 := by omega
      simp only [accumulated, if_neg hneg]
      rfl

/-- C17, witness.  First run: `size = 2^32 + 2` is read as a request for 2
bytes and returns `true` after 2 bytes.  Second run: `size = 2^31` is read as
the count -2^31; the one call ends in would-block and `read` returns `true`
with nothing accumulated and the second response unused. -/
theorem read_truncates_size_witness :
    ((∀ c ∈ (read scripted [⟨2, [1, 2], 0⟩, ⟨1, [3], 0⟩] () zeroMemory 4294967298).calls, c.Conforms) ∧
      (read scripted [⟨2, [1, 2], 0⟩, ⟨1, [3], 0⟩] () zeroMemory 4294967298).ret = some true ∧
      (read scripted [⟨2, [1, 2], 0⟩, ⟨1, [3], 0⟩] () zeroMemory 4294967298).calls = [⟨0, 2, ⟨2, [1, 2], 0⟩⟩] ∧
      ((∀ size' : Nat, size' % 4294967296 = 4294967298 % 4294967296 →
          read scripted [⟨2, [1, 2], 0⟩, ⟨1, [3], 0⟩] () zeroMemory size' = (read scripted [⟨2, [1, 2], 0⟩, ⟨1, [3], 0⟩] () zeroMemory 4294967298)) ∧
        (∀ k ks' r s', ([⟨2, [1, 2], 0⟩, ⟨1, [3], 0⟩] : List RecvResult) = k :: ks' → scripted () k (toInt32 ((4294967298 % 4294967296 : Nat) : Int)) = some (r, s') →
          ∃ rest, (read scripted [⟨2, [1, 2], 0⟩, ⟨1, [3], 0⟩] () zeroMemory 4294967298).calls = ⟨0, toInt32 ((4294967298 % 4294967296 : Nat) : Int), r⟩ :: rest) ∧
        ((read scripted [⟨2, [1, 2], 0⟩, ⟨1, [3], 0⟩] () zeroMemory 4294967298).calls = [] ↔
          ([⟨2, [1, 2], 0⟩, ⟨1, [3], 0⟩] : List RecvResult) = [] ∨ ∃ k ks', ([⟨2, [1, 2], 0⟩, ⟨1, [3], 0⟩] : List RecvResult) = k :: ks' ∧ scripted () k (toInt32 ((4294967298 % 4294967296 : Nat) : Int)) = none) ∧
        (0 < toInt32 ((4294967298 % 4294967296 : Nat) : Int) → (read scripted [⟨2, [1, 2], 0⟩, ⟨1, [3], 0⟩] () zeroMemory 4294967298).ret = some true →
          accumulated (read scripted [⟨2, [1, 2], 0⟩, ⟨1, [3], 0⟩] () zeroMemory 4294967298).calls = toInt32 ((4294967298 % 4294967296 : Nat) : Int)) ∧
        (toInt32 ((4294967298 % 4294967296 : Nat) : Int) ≤ 0 → ∀ k ks' r s', ([⟨2, [1, 2], 0⟩, ⟨1, [3], 0⟩] : List RecvResult) = k :: ks' → scripted () k (toInt32 ((4294967298 % 4294967296 : Nat) : Int)) = some (r, s') →
          (read scripted [⟨2, [1, 2], 0⟩, ⟨1, [3], 0⟩] () zeroMemory 4294967298).calls = [⟨0, toInt32 ((4294967298 % 4294967296 : Nat) : Int), r⟩] ∧
            (read scripted [⟨2, [1, 2], 0⟩, ⟨1, [3], 0⟩] () zeroMemory 4294967298).ret = some (decide (r.error = WSAEWOULDBLOCK)) ∧
            (read scripted [⟨2, [1, 2], 0⟩, ⟨1, [3], 0⟩] () zeroMemory 4294967298).schedule = ks' ∧
            accumulated (read scripted [⟨2, [1, 2], 0⟩, ⟨1, [3], 0⟩] () zeroMemory 4294967298).calls = 0))) ∧
    ((∀ c ∈ (read scripted [⟨-1, [], WSAEWOULDBLOCK⟩, ⟨1, [9], 0⟩] () zeroMemory 2147483648).calls, c.Conforms) ∧
      (read scripted [⟨-1, [], WSAEWOULDBLOCK⟩, ⟨1, [9], 0⟩] () zeroMemory 2147483648).ret = some true ∧
      (read scripted [⟨-1, [], WSAEWOULDBLOCK⟩, ⟨1, [9], 0⟩] () zeroMemory 2147483648).calls = [⟨0, -2147483648, ⟨-1, [], WSAEWOULDBLOCK⟩⟩] ∧
      (read scripted [⟨-1, [], WSAEWOULDBLOCK⟩, ⟨1, [9], 0⟩] () zeroMemory 2147483648).schedule = [⟨1, [9], 0⟩] ∧
      ((∀ size' : Nat, size' % 4294967296 = 2147483648 % 4294967296 →
          read scripted [⟨-1, [], WSAEWOULDBLOCK⟩, ⟨1, [9], 0⟩] () zeroMemory size' = (read scripted [⟨-1, [], WSAEWOULDBLOCK⟩, ⟨1, [9], 0⟩] () zeroMemory 2147483648)) ∧
        (∀ k ks' r s', ([⟨-1, [], WSAEWOULDBLOCK⟩, ⟨1, [9], 0⟩] : List RecvResult) = k :: ks' → scripted () k (toInt32 ((2147483648 % 4294967296 : Nat) : Int)) = some (r, s') →
          ∃ rest, (read scripted [⟨-1, [], WSAEWOULDBLOCK⟩, ⟨1, [9], 0⟩] () zeroMemory 2147483648).calls = ⟨0, toInt32 ((2147483648 % 4294967296 : Nat) : Int), r⟩ :: rest) ∧
        ((read scripted [⟨-1, [], WSAEWOULDBLOCK⟩, ⟨1, [9], 0⟩] () zeroMemory 2147483648).calls = [] ↔
          ([⟨-1, [], WSAEWOULDBLOCK⟩, ⟨1, [9], 0⟩] : List RecvResult) = [] ∨ ∃ k ks', ([⟨-1, [], WSAEWOULDBLOCK⟩, ⟨1, [9], 0⟩] : List RecvResult) = k :: ks' ∧ scripted () k (toInt32 ((2147483648 % 4294967296 : Nat) : Int)) = none) ∧
        (0 < toInt32 ((2147483648 % 4294967296 : Nat) : Int) → (read scripted [⟨-1, [], WSAEWOULDBLOCK⟩, ⟨1, [9], 0⟩] () zeroMemory 2147483648).ret = some true →
          accumulated (read scripted [⟨-1, [], WSAEWOULDBLOCK⟩, ⟨1, [9], 0⟩] () zeroMemory 2147483648).calls = toInt32 ((2147483648 % 4294967296 : Nat) : Int)) ∧
        (toInt32 ((2147483648 % 4294967296 : Nat) : Int) ≤ 0 → ∀ k ks' r s', ([⟨-1, [], WSAEWOULDBLOCK⟩, ⟨1, [9], 0⟩] : List RecvResult) = k :: ks' → scripted () k (toInt32 ((2147483648 % 4294967296 : Nat) : Int)) = some (r, s') →
          (read scripted [⟨-1, [], WSAEWOULDBLOCK⟩, ⟨1, [9], 0⟩] () zeroMemory 2147483648).calls = [⟨0, toInt32 ((2147483648 % 4294967296 : Nat) : Int), r⟩] ∧
            (read scripted [⟨-1, [], WSAEWOULDBLOCK⟩, ⟨1, [9], 0⟩] () zeroMemory 2147483648).ret = some (decide (r.error = WSAEWOULDBLOCK)) ∧
            (read scripted [⟨-1, [], WSAEWOULDBLOCK⟩, ⟨1, [9], 0⟩] () zeroMemory 2147483648).schedule = ks' ∧
            accumulated (read scripted [⟨-1, [], WSAEWOULDBLOCK⟩, ⟨1, [9], 0⟩] () zeroMemory 2147483648).calls = 0))) :=
  ⟨⟨by decide, by decide, by decide,
    read_truncates_size scripted [⟨2, [1, 2], 0⟩, ⟨1, [3], 0⟩] () zeroMemory 4294967298 (by decide)⟩,
   ⟨by decide, by decide, by decide, by decide,
    read_truncates_size scripted [⟨-1, [], WSAEWOULDBLOCK⟩, ⟨1, [9], 0⟩] () zeroMemory 2147483648 (by decide)⟩⟩

/-- C19.  For every transport, every non-empty schedule and every buffer,
when the transport answers the first call, asked for 0 bytes, with a result
that is not positive and stores nothing: `read` with `size = 0` makes that one
`::recv` call, with count 0 at the start of the buffer, and returns right
after it, `false` when the outcome is a hard failure and `true` when it is
would-block; the rest of the schedule is unused, nothing is accumulated and
the buffer is as before.  With no response to the call, `read` does not
return. -/
theorem read_zero_size {σ κ : Type} (recv : Recv σ κ) (k : κ) (ks' : List κ) (s s' : σ)
    (buffer : Memory) (r : RecvResult) (hrecv : recv s k 0 = some (r, s'))
    (hconf : (RecvCall.mk 0 0 r).Conforms) :
    (read recv (k :: ks') s buffer 0).calls = [⟨0, 0, r⟩] ∧
      (read recv (k :: ks') s buffer 0).ret = some (decide (r.error = WSAEWOULDBLOCK)) ∧
      (r.Hard → (read recv (k :: ks') s buffer 0).ret = some false) ∧
      (r.WouldBlock → (read recv (k :: ks') s buffer 0).ret = some true) ∧
      (r.Hard ∨ r.WouldBlock) ∧
      (read recv (k :: ks') s buffer 0).schedule = ks' ∧
      (read recv (k :: ks') s buffer 0).socket = s' ∧
      (read recv (k :: ks') s buffer 0).buffer = buffer ∧
      accumulated (read recv (k :: ks') s buffer 0).calls = 0 ∧
      (read recv [] s buffer 0).ret = none := by
  have e : toInt32 ((0 : Nat) : Int) = 0 := by decide
  have hle : r.received ≤ 0 := by
    rcases hconf with ⟨h₁, h₂, _⟩ | ⟨h, _⟩
    · have h₁' : 1 ≤ r.received := h₁
      have h₂' : r.received ≤ 0 := h₂
      omega
    · exact h
  have hbytes : r.bytes = [] := by
    rcases hconf with ⟨h₁, _, _⟩ | ⟨_, h⟩
    · have h₁' : 1 ≤ r.received := h₁
      omega
    · exact h
  unfold read
  rw [e]
  obtain ⟨n₁, n₂, n₃, n₄, n₅⟩ :=
    @readLoop_nonpos σ κ recv k ks' s s' buffer 0 0 r hrecv (le_refl _) (by omega) hle
  refine ⟨n₂, n₁, ?_, ?_, ?_, n₄, n₅, ?_, ?_, rfl⟩
  · intro hh
    rw [n₁, decide_eq_false hh.2]
  · intro hw
    rw [n₁, decide_eq_true hw.2]
  · by_cases hw : r.error = WSAEWOULDBLOCK
    · exact Or.inr ⟨hle, hw⟩
    · exact Or.inl ⟨hle, hw⟩
  · rw [n₃, hbytes, store_nil]
  · rw [n₂]
    have hneg : ¬ r.received > 0 := by omega
    simp only [accumulated, if_neg hneg]
    rfl

/-- C19, witness.  First run: the one call returns 0 with no would-block and
`read` returns `false`.  Second run: the one call ends in would-block and
`read` returns `true`.  In both the second scripted outcome is never asked
for. -/
theorem read_zero_size_witness :
    ((scripted () ⟨0, [], 0⟩ 0 = some (⟨0, [], 0⟩, ())) ∧
      ((RecvCall.mk 0 0 ⟨0, [], 0⟩).Conforms) ∧
      (read scripted (⟨0, [], 0⟩ :: [⟨1, [9], 0⟩]) () zeroMemory 0).ret = some false ∧
      (read scripted (⟨0, [], 0⟩ :: [⟨1, [9], 0⟩]) () zeroMemory 0).calls.length = 1 ∧
      ((read scripted (⟨0, [], 0⟩ :: [⟨1, [9], 0⟩]) () zeroMemory 0).calls = [⟨0, 0, ⟨0, [], 0⟩⟩] ∧
        (read scripted (⟨0, [], 0⟩ :: [⟨1, [9], 0⟩]) () zeroMemory 0).ret = some (decide ((⟨0, [], 0⟩ : RecvResult).error = WSAEWOULDBLOCK)) ∧
        ((⟨0, [], 0⟩ : RecvResult).Hard → (read scripted (⟨0, [], 0⟩ :: [⟨1, [9], 0⟩]) () zeroMemory 0).ret = some false) ∧
        ((⟨0, [], 0⟩ : RecvResult).WouldBlock → (read scripted (⟨0, [], 0⟩ :: [⟨1, [9], 0⟩]) () zeroMemory 0).ret = some true) ∧
        ((⟨0, [], 0⟩ : RecvResult).Hard ∨ (⟨0, [], 0⟩ : RecvResult).WouldBlock) ∧
        (read scripted (⟨0, [], 0⟩ :: [⟨1, [9], 0⟩]) () zeroMemory 0).schedule = [⟨1, [9], 0⟩] ∧
        (read scripted (⟨0, [], 0⟩ :: [⟨1, [9], 0⟩]) () zeroMemory 0).socket = () ∧
        (read scripted (⟨0, [], 0⟩ :: [⟨1, [9], 0⟩]) () zeroMemory 0).buffer = zeroMemory ∧
        accumulated (read scripted (⟨0, [], 0⟩ :: [⟨1, [9], 0⟩]) () zeroMemory 0).calls = 0 ∧
        (read scripted [] () zeroMemory 0).ret = none)) ∧
    ((scripted () ⟨-1, [], WSAEWOULDBLOCK⟩ 0 = some (⟨-1, [], WSAEWOULDBLOCK⟩, ())) ∧
      ((RecvCall.mk 0 0 ⟨-1, [], WSAEWOULDBLOCK⟩).Conforms) ∧
      (read scripted (⟨-1, [], WSAEWOULDBLOCK⟩ :: [⟨1, [9], 0⟩]) () zeroMemory 0).ret = some true ∧
      (read scripted (⟨-1, [], WSAEWOULDBLOCK⟩ :: [⟨1, [9], 0⟩]) () zeroMemory 0).calls.length = 1 ∧
      ((read scripted (⟨-1, [], WSAEWOULDBLOCK⟩ :: [⟨1, [9], 0⟩]) () zeroMemory 0).calls = [⟨0, 0, ⟨-1, [], WSAEWOULDBLOCK⟩⟩] ∧
        (read scripted (⟨-1, [], WSAEWOULDBLOCK⟩ :: [⟨1, [9], 0⟩]) () zeroMemory 0).ret = some (decide ((⟨-1, [], WSAEWOULDBLOCK⟩ : RecvResult).error = WSAEWOULDBLOCK)) ∧
        ((⟨-1, [], WSAEWOULDBLOCK⟩ : RecvResult).Hard → (read scripted (⟨-1, [], WSAEWOULDBLOCK⟩ :: [⟨1, [9], 0⟩]) () zeroMemory 0).ret = some false) ∧
        ((⟨-1, [], WSAEWOULDBLOCK⟩ : RecvResult).WouldBlock → (read scripted (⟨-1, [], WSAEWOULDBLOCK⟩ :: [⟨1, [9], 0⟩]) () zeroMemory 0).ret = some true) ∧
        ((⟨-1, [], WSAEWOULDBLOCK⟩ : RecvResult).Hard ∨ (⟨-1, [], WSAEWOULDBLOCK⟩ : RecvResult).WouldBlock) ∧
        (read scripted (⟨-1, [], WSAEWOULDBLOCK⟩ :: [⟨1, [9], 0⟩]) () zeroMemory 0).schedule = [⟨1, [9], 0⟩] ∧
        (read scripted (⟨-1, [], WSAEWOULDBLOCK⟩ :: [⟨1, [9], 0⟩]) () zeroMemory 0).socket = () ∧
        (read scripted (⟨-1, [], WSAEWOULDBLOCK⟩ :: [⟨1, [9], 0⟩]) () zeroMemory 0).buffer = zeroMemory ∧
        accumulated (read scripted (⟨-1, [], WSAEWOULDBLOCK⟩ :: [⟨1, [9], 0⟩]) () zeroMemory 0).calls = 0 ∧
        (read scripted [] () zeroMemory 0).ret = none)) :=
  ⟨⟨rfl, by decide, by decide, by decide,
    read_zero_size scripted ⟨0, [], 0⟩ [⟨1, [9], 0⟩] () () zeroMemory ⟨0, [], 0⟩ rfl (by decide)⟩,
   ⟨rfl, by decide, by decide, by decide,
    read_zero_size scripted ⟨-1, [], WSAEWOULDBLOCK⟩ [⟨1, [9], 0⟩] () () zeroMemory ⟨-1, [], WSAEWOULDBLOCK⟩ rfl (by decide)⟩⟩

/-- C12, counterexample.  With `size = 0` the script whose one outcome is a
hard failure makes `read` return `false`; with a would-block outcome put in
front of it `read` returns `true`, and it makes no call after the would-block
outcome. -/
theorem zero_size_would_block_changes_result :
    (RecvResult.mk (-1) [] WSAEWOULDBLOCK).WouldBlock ∧
      (read scripted [⟨0, [], 0⟩] () zeroMemory 0).ret = some false ∧
      (read scripted [⟨-1, [], WSAEWOULDBLOCK⟩, ⟨0, [], 0⟩] () zeroMemory 0).ret = some true ∧
      (read scripted [⟨-1, [], WSAEWOULDBLOCK⟩, ⟨0, [], 0⟩] () zeroMemory 0).calls.length = 1 ∧
      (read scripted [⟨0, [], 0⟩] () zeroMemory 0).ret ≠
        (read scripted [⟨-1, [], WSAEWOULDBLOCK⟩, ⟨0, [], 0⟩] () zeroMemory 0).ret := by
  decide

/-- C12, amended.  For every requested size whose value as an `int32` is
positive, every buffer and every sequence of transport responses: putting a
would-block response (a zero or negative result with error code would-block,
which stores nothing) anywhere into the sequence changes neither the value
`read` returns nor the buffer; and in the run, a call that ended in
would-block is never the last step of a run that has returned: the next call
is made with the same destination offset and the same count. -/
theorem would_block_is_retry (size : Nat) (buffer : Memory) (pre post : List RecvResult)
    (wb : RecvResult) (hsize : 0 < toInt32 size) (hwb : wb.WouldBlock)
    (hbytes : wb.bytes = []) :
    (read scripted (pre ++ wb :: post) () buffer size).ret =
        (read scripted (pre ++ post) () buffer size).ret ∧
      (read scripted (pre ++ wb :: post) () buffer size).buffer =
        (read scripted (pre ++ post) () buffer size).buffer ∧
      (∀ before c after,
        (read scripted (pre ++ wb :: post) () buffer size).calls = before ++ c :: after →
        c.result.WouldBlock →
        (after = [] → (read scripted (pre ++ wb :: post) () buffer size).ret = none) ∧
          (∀ d rest, after = d :: rest → d.ptr = c.ptr ∧ d.len = c.len)) := by
  have hr := toInt32_range (size : Int)
  obtain ⟨h₁, h₂, _⟩ := readLoop_insert_wouldblock wb hwb hbytes post pre buffer 0
    (toInt32 size) hsize hr.2
  refine ⟨h₁, h₂, ?_⟩
  intro before c after hcalls hc
  constructor
  · intro hafter
    rw [hafter] at hcalls
    exact readLoop_wouldblock_not_last scripted _ () buffer 0 _ before c hsize hr.2 hcalls hc
  · intro d rest hafter
    rw [hafter] at hcalls
    exact (readLoop_next scripted _ () buffer 0 _ before rest c d hr.1 hr.2 hcalls).2 hc.1

/-- C12, witness: three bytes delivered as two and one, with a would-block
outcome put between them. -/
theorem would_block_is_retry_witness :
    (0 < toInt32 3) ∧ (RecvResult.mk (-1) [] WSAEWOULDBLOCK).WouldBlock ∧
      ((RecvResult.mk (-1) [] WSAEWOULDBLOCK).bytes = []) ∧
      ((read scripted ([⟨2, [1, 2], 0⟩] ++ ⟨-1, [], WSAEWOULDBLOCK⟩ :: [⟨1, [3], 0⟩]) ()
          zeroMemory 3).ret =
          (read scripted ([⟨2, [1, 2], 0⟩] ++ [⟨1, [3], 0⟩]) () zeroMemory 3).ret ∧
        (read scripted ([⟨2, [1, 2], 0⟩] ++ ⟨-1, [], WSAEWOULDBLOCK⟩ :: [⟨1, [3], 0⟩]) ()
          zeroMemory 3).buffer =
          (read scripted ([⟨2, [1, 2], 0⟩] ++ [⟨1, [3], 0⟩]) () zeroMemory 3).buffer ∧
        (∀ before c after,
          (read scripted ([⟨2, [1, 2], 0⟩] ++ ⟨-1, [], WSAEWOULDBLOCK⟩ :: [⟨1, [3], 0⟩]) ()
            zeroMemory 3).calls = before ++ c :: after →
          c.result.WouldBlock →
          (after = [] →
            (read scripted ([⟨2, [1, 2], 0⟩] ++ ⟨-1, [], WSAEWOULDBLOCK⟩ :: [⟨1, [3], 0⟩]) ()
              zeroMemory 3).ret = none) ∧
            (∀ d rest, after = d :: rest → d.ptr = c.ptr ∧ d.len = c.len))) :=
  ⟨by decide, by decide, rfl,
    would_block_is_retry 3 zeroMemory [⟨2, [1, 2], 0⟩] [⟨1, [3], 0⟩]
      ⟨-1, [], WSAEWOULDBLOCK⟩ (by decide) (by decide) rfl⟩

/-- C13.  For every size with `1 <= size < 2^31` and every transport that
answers each call with a count between 1 and the count requested, a hard
failure, or would-block: when the schedule offers at least `size` responses
besides the would-block ones of the run, `read` returns, after at most `size`
calls besides those that ended in would-block, so after at most `size` calls
when none did; the count requested strictly decreases from a call that
delivered bytes to the next call. -/
theorem read_terminates {σ κ : Type} (recv : Recv σ κ) (ks : List κ) (s : σ) (buffer : Memory)
    (size : Nat) (hresp : ∀ s k len, recv s k len ≠ none)
    (h₁ : 1 ≤ size) (h₂ : size < 2147483648)
    (hok : ∀ c ∈ (read recv ks s buffer size).calls,
      0 < c.result.received → c.result.received ≤ c.len)
    (hsched : size + wouldBlocks (read recv ks s buffer size).calls ≤ ks.length) :
    (∃ b, (read recv ks s buffer size).ret = some b) ∧
      (read recv ks s buffer size).calls.length ≤
        size + wouldBlocks (read recv ks s buffer size).calls ∧
      (wouldBlocks (read recv ks s buffer size).calls = 0 →
        (read recv ks s buffer size).calls.length ≤ size) ∧
      (∀ before c d after,
        (read recv ks s buffer size).calls = before ++ c :: d :: after →
        0 < c.result.received → d.len < c.len) := by
  have e := toInt32_ofNat_small h₂
  unfold read at hok hsched ⊢
  rw [e] at hok hsched ⊢
  obtain ⟨t₁, t₂⟩ := readLoop_terminates recv hresp ks s buffer 0 size (by omega) (by omega) hok
  refine ⟨?_, by omega, fun h => by omega, ?_⟩
  · cases hret : (readLoop recv ks s buffer 0 size).ret with
    | none => have := t₁ hret; omega
    | some b => exact ⟨b, rfl⟩
  · intro before c d after hcalls hpos
    have hmem : c ∈ (readLoop recv ks s buffer 0 size).calls := by
      rw [hcalls]; simp
    have hlen := readLoop_len_pos recv ks s buffer 0 size (by omega) (by omega) c hmem
    have hle := hok c hmem hpos
    have hd := ((readLoop_next recv ks s buffer 0 size before after c d (by omega) (by omega)
      hcalls).1 hpos).2
    rw [hd, toInt32_of_range (by omega) (by omega)]
    omega

theorem scripted_answers : ∀ (s : Unit) (k : RecvResult) (len : Int), scripted s k len ≠ none := by
  intro s k len h
  simp [scripted] at h

/-- C13, witness: three bytes delivered as one byte, a would-block, two
bytes, on a schedule of four responses. -/
theorem read_terminates_witness :
    (∀ (s : Unit) (k : RecvResult) (len : Int), scripted s k len ≠ none) ∧ (1 ≤ 3) ∧
      (3 < 2147483648) ∧
      (∀ c ∈ (read scripted [⟨1, [1], 0⟩, ⟨-1, [], WSAEWOULDBLOCK⟩, ⟨2, [2, 3], 0⟩, ⟨0, [], 0⟩] ()
        zeroMemory 3).calls, 0 < c.result.received → c.result.received ≤ c.len) ∧
      (3 + wouldBlocks (read scripted
          [⟨1, [1], 0⟩, ⟨-1, [], WSAEWOULDBLOCK⟩, ⟨2, [2, 3], 0⟩, ⟨0, [], 0⟩] ()
          zeroMemory 3).calls ≤
        [(⟨1, [1], 0⟩ : RecvResult), ⟨-1, [], WSAEWOULDBLOCK⟩, ⟨2, [2, 3], 0⟩,
          ⟨0, [], 0⟩].length) ∧
      ((∃ b, (read scripted [⟨1, [1], 0⟩, ⟨-1, [], WSAEWOULDBLOCK⟩, ⟨2, [2, 3], 0⟩, ⟨0, [], 0⟩] ()
          zeroMemory 3).ret = some b) ∧
        (read scripted [⟨1, [1], 0⟩, ⟨-1, [], WSAEWOULDBLOCK⟩, ⟨2, [2, 3], 0⟩, ⟨0, [], 0⟩] ()
          zeroMemory 3).calls.length ≤
          3 + wouldBlocks (read scripted
            [⟨1, [1], 0⟩, ⟨-1, [], WSAEWOULDBLOCK⟩, ⟨2, [2, 3], 0⟩, ⟨0, [], 0⟩] ()
            zeroMemory 3).calls ∧
        (wouldBlocks (read scripted
            [⟨1, [1], 0⟩, ⟨-1, [], WSAEWOULDBLOCK⟩, ⟨2, [2, 3], 0⟩, ⟨0, [], 0⟩] ()
            zeroMemory 3).calls = 0 →
          (read scripted [⟨1, [1], 0⟩, ⟨-1, [], WSAEWOULDBLOCK⟩, ⟨2, [2, 3], 0⟩, ⟨0, [], 0⟩] ()
            zeroMemory 3).calls.length ≤ 3) ∧
        (∀ before c d after,
          (read scripted [⟨1, [1], 0⟩, ⟨-1, [], WSAEWOULDBLOCK⟩, ⟨2, [2, 3], 0⟩, ⟨0, [], 0⟩] ()
            zeroMemory 3).calls = before ++ c :: d :: after →
          0 < c.result.received → d.len < c.len)) :=
  ⟨scripted_answers, by decide, by decide, by decide, by decide,
    read_terminates scripted [⟨1, [1], 0⟩, ⟨-1, [], WSAEWOULDBLOCK⟩, ⟨2, [2, 3], 0⟩, ⟨0, [], 0⟩]
      () zeroMemory 3 scripted_answers (by decide) (by decide) (by decide) (by decide)⟩

/-! ## Sequences of `start` calls -/

/-- Effect of one `start` on the sockets: nothing is closed; the new socket
becomes a listening one exactly when the call returns `true`, and then the
acceptor holds it. -/
theorem start_step (a : TCPAcceptor) (os : StartResults) (inet_addr : List Nat → Nat)
    (ip : Option (List Nat)) (port : Nat) (w : Sockets) :
    (w.afterStart os (a.start os inet_addr ip port).calls).listening =
        (if succeeded ⟨os, ip, port⟩ then os.socket :: w.listening else w.listening) ∧
      (∀ h ∈ w.opened, h ∈ (w.afterStart os (a.start os inet_addr ip port).calls).opened) ∧
      (succeeded ⟨os, ip, port⟩ = true →
        (a.start os inet_addr ip port).ret = true ∧
          (a.start os inet_addr ip port).acceptor.m_socket = os.socket ∧
          os.socket ∈ (w.afterStart os (a.start os inet_addr ip port).calls).opened) := by
  by_cases h₁ : os.wsaStartup = 0
  · by_cases h₂ : os.socket = INVALID_SOCKET
    · simp [TCPAcceptor.start, Sockets.afterStart, Sockets.step, succeeded, h₁, h₂]
    · by_cases h₃ : os.bind = SOCKET_ERROR
      · simp [TCPAcceptor.start, Sockets.afterStart, Sockets.step, succeeded, h₁, h₂, h₃]
        intro h hh; exact Or.inr hh
      · by_cases h₄ : os.listen = 0
        · simp [TCPAcceptor.start, Sockets.afterStart, Sockets.step, succeeded, h₁, h₂, h₃, h₄]
          intro h hh; exact Or.inr hh
        · simp [TCPAcceptor.start, Sockets.afterStart, Sockets.step, succeeded, h₁, h₂, h₃, h₄]
          intro h hh; exact Or.inr hh
  · simp [TCPAcceptor.start, Sockets.afterStart, Sockets.step, succeeded, h₁]

theorem startAll_cons (inet_addr : List Nat → Nat) (a : TCPAcceptor) (w : Sockets)
    (c : StartCall) (cs : List StartCall) :
    startAll inet_addr a w (c :: cs) =
      startAll inet_addr (a.start c.os inet_addr c.ip c.port).acceptor
        (w.afterStart c.os (a.start c.os inet_addr c.ip c.port).calls) cs := rfl

/-- After a sequence of `start` calls the listening sockets are those there
were before and the sockets of the calls that returned `true`, the latest
first, and every socket that was open is open. -/
theorem startAll_listening (inet_addr : List Nat → Nat) (cs : List StartCall) :
    ∀ (a : TCPAcceptor) (w : Sockets),
      (startAll inet_addr a w cs).2.listening =
          ((cs.filter succeeded).map (fun c => c.os.socket)).reverse ++ w.listening ∧
        (∀ h ∈ w.opened, h ∈ (startAll inet_addr a w cs).2.opened) := by
  induction cs with
  | nil => intro a w; exact ⟨rfl, fun _ h => h⟩
  | cons c cs ih =>
    intro a w
    obtain ⟨s₁, s₂, _⟩ := start_step a c.os inet_addr c.ip c.port w
    obtain ⟨i₁, i₂⟩ := ih (a.start c.os inet_addr c.ip c.port).acceptor
      (w.afterStart c.os (a.start c.os inet_addr c.ip c.port).calls)
    rw [startAll_cons]
    refine ⟨?_, fun h hh => i₂ h (s₂ h hh)⟩
    rw [i₁, s₁]
    by_cases hs : succeeded c = true
    · have hs' : succeeded ⟨c.os, c.ip, c.port⟩ = true := hs
      rw [if_pos hs', List.filter_cons_of_pos hs]
      simp
    · have hs' : ¬ succeeded ⟨c.os, c.ip, c.port⟩ = true := hs
      rw [if_neg hs', List.filter_cons_of_neg hs]

/-- After a sequence of `start` calls whose last call returned `true`, the
acceptor holds the socket of that call, which is open. -/
theorem startAll_holds_last (inet_addr : List Nat → Nat) (cs : List StartCall) :
    ∀ (a : TCPAcceptor) (w : Sockets) (before : List StartCall) (c : StartCall),
      cs = before ++ [c] → succeeded c = true →
      (startAll inet_addr a w cs).1.m_socket = c.os.socket ∧
        c.os.socket ∈ (startAll inet_addr a w cs).2.opened := by
  induction cs with
  | nil => intro a w before c h; simp at h
  | cons x cs ih =>
    intro a w before c hcs hsucc
    rw [startAll_cons]
    cases before with
    | nil =>
      simp only [List.nil_append, List.cons.injEq] at hcs
      obtain ⟨e₁, e₂⟩ := hcs
      subst e₁ e₂
      obtain ⟨_, _, s₃⟩ := start_step a x.os inet_addr x.ip x.port w
      obtain ⟨_, m, o⟩ := s₃ hsucc
      exact ⟨m, o⟩
    | cons y ys =>
      simp only [List.cons_append, List.cons.injEq] at hcs
      exact ih _ _ ys c hcs.2 hsucc

/-- A `start` call returns `true` exactly when its four system calls
succeed. -/
theorem start_ret_eq_succeeded (a : TCPAcceptor) (inet_addr : List Nat → Nat)
    (c : StartCall) : (a.start c.os inet_addr c.ip c.port).ret = succeeded c := by
  by_cases h₁ : c.os.wsaStartup = 0
  · by_cases h₂ : c.os.socket = INVALID_SOCKET
    · simp [TCPAcceptor.start, succeeded, h₁, h₂]
    · by_cases h₃ : c.os.bind = SOCKET_ERROR
      · simp [TCPAcceptor.start, succeeded, h₁, h₂, h₃]
      · simp [TCPAcceptor.start, succeeded, h₁, h₂, h₃]
  · simp [TCPAcceptor.start, succeeded, h₁]

/-- The socket of every `start` call of a sequence that returned `true` is
open after the sequence. -/
theorem startAll_created_open (inet_addr : List Nat → Nat) (cs : List StartCall) :
    ∀ (a : TCPAcceptor) (w : Sockets), ∀ c ∈ cs, succeeded c = true →
      c.os.socket ∈ (startAll inet_addr a w cs).2.opened := by
  induction cs with
  | nil => intro a w c hc; simp at hc
  | cons x cs ih =>
    intro a w c hc hsucc
    rw [startAll_cons]
    rw [List.mem_cons] at hc
    by_cases hin : c ∈ cs
    · exact ih _ _ c hin hsucc
    · have e : c = x := by
        rcases hc with h | h
        · exact h
        · exact absurd h hin
      subst e
      obtain ⟨_, _, s₃⟩ := start_step a c.os inet_addr c.ip c.port w
      obtain ⟨_, _, o⟩ := s₃ hsucc
      exact (startAll_listening inet_addr cs _ _).2 _ o

/-- C16, counterexample.  On a fresh acceptor two `start` calls, on the ports
9000 and 9001, both succeed, the system giving the handles 5 and 6: afterwards
the sockets 5 and 6 are both open and listening, and the acceptor holds 6. -/
theorem second_start_leaves_first_listening :
    (TCPAcceptor.new 0).start ⟨0, 5, 0, 0⟩ (fun _ => 0) none 9000 =
        ⟨true, ⟨5⟩, [.wsaStartup 514, .socket 2 1 6, .bind 5 ⟨2, 10275, 0⟩, .listen 5 10]⟩ ∧
      ((TCPAcceptor.mk 5).start ⟨0, 6, 0, 0⟩ (fun _ => 0) none 9001).ret = true ∧
      startAll (fun _ => 0) (TCPAcceptor.new 0) ⟨[], []⟩
          [⟨⟨0, 5, 0, 0⟩, none, 9000⟩, ⟨⟨0, 6, 0, 0⟩, none, 9001⟩] =
        (⟨6⟩, ⟨[6, 5], [6, 5]⟩) ∧
      ¬ ((startAll (fun _ => 0) (TCPAcceptor.new 0) ⟨[], []⟩
          [⟨⟨0, 5, 0, 0⟩, none, 9000⟩, ⟨⟨0, 6, 0, 0⟩, none, 9001⟩]).2.listening.length ≤ 1) := by
  decide

/-- C16, amended.  For every sequence of `start` calls on one acceptor, with
any results of the system calls, in which at most one call returns `true`: at
any time of the sequence at most one listening socket created by the acceptor
exists, and it is open.  The listening sockets after any initial part of the
sequence are those there were before and, in front of them, the sockets of the
calls of that part that returned `true`, of which there is at most one.  The
value `start` returns depends on the results of its system calls only, not on
the acceptor it is called on. -/
theorem start_sequence_one_listening (inet_addr : List Nat → Nat) (a : TCPAcceptor)
    (w : Sockets) (cs : List StartCall)
    (hone : (cs.filter (fun c => (a.start c.os inet_addr c.ip c.port).ret)).length ≤ 1) :
    ∀ done rest, cs = done ++ rest →
      ∃ created,
        (startAll inet_addr a w done).2.listening = created ++ w.listening ∧
          created = ((done.filter (fun c => (a.start c.os inet_addr c.ip c.port).ret)).map
            (fun c => c.os.socket)).reverse ∧
          created.length ≤ 1 ∧
          (∀ h ∈ created, h ∈ (startAll inet_addr a w done).2.opened) ∧
          (startAll inet_addr a w done).2.listening.length ≤ w.listening.length + 1 := by
  have hfun : (fun c : StartCall => (a.start c.os inet_addr c.ip c.port).ret) = succeeded := by
    funext c
    exact start_ret_eq_succeeded a inet_addr c
  rw [hfun] at hone ⊢
  intro done rest hcs
  obtain ⟨l₁, _⟩ := startAll_listening inet_addr done a w
  have hlen : (done.filter succeeded).length ≤ 1 := by
    rw [hcs, List.filter_append, List.length_append] at hone
    omega
  refine ⟨_, l₁, rfl, by simpa using hlen, ?_, ?_⟩
  · intro h hh
    rw [List.mem_reverse, List.mem_map] at hh
    obtain ⟨c, hc, e⟩ := hh
    rw [List.mem_filter] at hc
    rw [← e]
    exact startAll_created_open inet_addr done a w c hc.1 hc.2
  · rw [l₁]
    simp only [List.length_append, List.length_reverse, List.length_map]
    omega

/-- C16, witness: three `start` calls, the first failing in bind, the second
succeeding with the socket 5, the third failing in listen; after the whole
sequence the one listening socket is 5. -/
theorem start_sequence_one_listening_witness :
    ((([⟨⟨0, 4, -1, 0⟩, none, 9000⟩, ⟨⟨0, 5, 0, 0⟩, none, 9000⟩, ⟨⟨0, 6, 0, -1⟩, none, 9001⟩] : List StartCall).filter
        (fun c => ((TCPAcceptor.new 0).start c.os (fun _ => 0) c.ip c.port).ret)).length ≤ 1) ∧
      (startAll (fun _ => 0) (TCPAcceptor.new 0) ⟨[], []⟩ [⟨⟨0, 4, -1, 0⟩, none, 9000⟩, ⟨⟨0, 5, 0, 0⟩, none, 9000⟩, ⟨⟨0, 6, 0, -1⟩, none, 9001⟩]).2.listening = [5] ∧
      (startAll (fun _ => 0) (TCPAcceptor.new 0) ⟨[], []⟩ [⟨⟨0, 4, -1, 0⟩, none, 9000⟩, ⟨⟨0, 5, 0, 0⟩, none, 9000⟩, ⟨⟨0, 6, 0, -1⟩, none, 9001⟩]).2.opened = [6, 5, 4] ∧
      (∀ done rest, ([⟨⟨0, 4, -1, 0⟩, none, 9000⟩, ⟨⟨0, 5, 0, 0⟩, none, 9000⟩, ⟨⟨0, 6, 0, -1⟩, none, 9001⟩] : List StartCall) = done ++ rest →
        ∃ created,
          (startAll (fun _ => 0) (TCPAcceptor.new 0) ⟨[], []⟩ done).2.listening =
              created ++ (Sockets.mk [] []).listening ∧
            created = ((done.filter
              (fun c => ((TCPAcceptor.new 0).start c.os (fun _ => 0) c.ip c.port).ret)).map
              (fun c => c.os.socket)).reverse ∧
            created.length ≤ 1 ∧
            (∀ h ∈ created,
              h ∈ (startAll (fun _ => 0) (TCPAcceptor.new 0) ⟨[], []⟩ done).2.opened) ∧
            (startAll (fun _ => 0) (TCPAcceptor.new 0) ⟨[], []⟩ done).2.listening.length ≤
              (Sockets.mk [] []).listening.length + 1) :=
  ⟨by decide, by decide, by decide,
    start_sequence_one_listening (fun _ => 0) (TCPAcceptor.new 0) ⟨[], []⟩ [⟨⟨0, 4, -1, 0⟩, none, 9000⟩, ⟨⟨0, 5, 0, 0⟩, none, 9000⟩, ⟨⟨0, 6, 0, -1⟩, none, 9001⟩] (by decide)⟩

end Net
end Lumix
